import Mathlib

/-!
# A verification model of the SchemeInterpreter core

Shallow embedding, in Lean 4, of the interpreter found in
`src/parser.cpp`, `src/evaluation.cpp`, `src/value.cpp` and `src/main.cpp`
of the SchemeInterpreter repository.

Modelling conventions, fixed once for the whole file:

* C++ `int` is modelled as `Int` together with an explicit two's-complement
  wrap `wrap32` applied wherever the C++ code performs `int` arithmetic that
  can overflow (we adopt the usual wrap-around reading of signed overflow on
  a 32-bit `int`, which is what the shipped binaries do on mainstream
  targets).
* C++ truncated division/remainder (`/`, `%`) are `Int.tdiv` / `Int.tmod`.
* `while` loops become fuel-indexed structural recursions returning
  `Option`/a dedicated out-of-fuel marker, together with lemmas showing the
  chosen fuel suffices, so that the fuelled function is extensionally the
  C++ loop.
* The environment (`Assoc` chains of `AssocList` frames whose `v` field is
  mutable and shared) is modelled as a chain `Env` of (name, slot address)
  frames plus a global `Store` of slots; `extend` allocates a new slot and
  `modify`/`set!` write through the address, which is exactly the shared
  interior mutability of the C++ `shared_ptr` frames.  The C++ evaluator
  receives the environment by reference (`Assoc &e`) and `Define::eval`
  reassigns it, so `eval` returns the (possibly reassigned) environment
  along with the value; errors carry the environment and the store at the
  throw point, mirroring what the REPL's environment looks like after an
  exception unwind.
* Pair values are modelled structurally (immutable) in the main model; the
  mutation primitives `set-car!`/`set-cdr!` and the cyclic structures they
  can create are modelled separately by the heap model (`HeapModel` section
  below), which the `list?` cycle-safety claim is about.  The main model's
  `.setCar`/`.setCdr` expressions therefore evaluate to an error flagging
  that pair mutation lives in the heap model; no other definition and no
  theorem in this file depends on that case.
-/

namespace SchemeSpec

/-- Two's-complement wrap of an integer into the 32-bit `int` range
`[-2^31, 2^31)`.  Applied wherever the C++ code does `int` arithmetic. -/
def wrap32 (z : Int) : Int := (z + 2 ^ 31) % 2 ^ 32 - 2 ^ 31

/-- The 32-bit `int` range of the C++ implementation. -/
def inRange32 (z : Int) : Prop := -2 ^ 31 ≤ z ∧ z < 2 ^ 31

instance (z : Int) : Decidable (inRange32 z) := by
  unfold inRange32; infer_instance

theorem wrap32_eq_self {z : Int} (h : inRange32 z) : wrap32 z = z := by
  obtain ⟨h1, h2⟩ := h
  unfold wrap32
  omega

theorem wrap32_inRange (z : Int) : inRange32 (wrap32 z) := by
  unfold wrap32 inRange32
  have h1 : 0 ≤ (z + 2 ^ 31) % 2 ^ 32 := Int.emod_nonneg _ (by norm_num)
  have h2 : (z + 2 ^ 31) % 2 ^ 32 < 2 ^ 32 := Int.emod_lt_of_pos _ (by norm_num)
  omega

/-- `wrap32` of a negation keeps the magnitude for every in-range operand:
negating any `int` other than `-2^31` is exact, and `-(-2^31)` wraps back to
`-2^31`, whose magnitude is unchanged. -/
theorem natAbs_wrap32_neg {z : Int} (h : inRange32 z) :
    (wrap32 (-z)).natAbs = z.natAbs := by
  rcases eq_or_ne z (-2 ^ 31) with rfl | hne
  · decide
  · have : inRange32 (-z) := by
      obtain ⟨h1, h2⟩ := h
      constructor <;> omega
    rw [wrap32_eq_self this, Int.natAbs_neg]

/-- The absolute-value step `if (a < 0) a = -a;` of the C++ `gcd` helper in
`value.cpp`, with the negation wrapped as `int` negation is. -/
def cAbs (z : Int) : Int := if z < 0 then wrap32 (-z) else z

theorem natAbs_cAbs {z : Int} (h : inRange32 z) : (cAbs z).natAbs = z.natAbs := by
  unfold cAbs
  split
  · exact natAbs_wrap32_neg h
  · rfl

theorem cAbs_nonneg_of_gt {z : Int} (h : -2 ^ 31 < z) : 0 ≤ cAbs z := by
  unfold cAbs
  split
  · rename_i hz
    rw [wrap32_eq_self (by constructor <;> omega)]
    omega
  · omega

/-- Magnitude of a truncated remainder: `Int.tmod` truncates toward zero,
so its magnitude is the `Nat` remainder of the magnitudes. -/
theorem natAbs_tmod (a b : Int) : (a.tmod b).natAbs = a.natAbs % b.natAbs := by
  cases a <;> cases b <;> simp only [Int.tmod, Int.natAbs_neg] <;> rfl

/-- Magnitude of a truncated quotient. -/
theorem natAbs_tdiv (a b : Int) : (a.tdiv b).natAbs = a.natAbs / b.natAbs := by
  cases a <;> cases b <;> simp only [Int.tdiv, Int.natAbs_neg] <;> rfl

/-- The `while (b != 0) { temp = b; b = a % b; a = temp; }` loop of the
`gcd` helper in `value.cpp`, fuelled; `none` means the fuel ran out (the
sufficiency lemma below shows `b.natAbs + 1` units never do). -/
def cGcdLoop (fuel : Nat) (a b : Int) : Option Int :=
  match fuel with
  | 0 => none
  | fuel + 1 => if b = 0 then some a else cGcdLoop fuel b (a.tmod b)

theorem cGcdLoop_stable : ∀ (f g : Nat) (a b : Int) (r : Int), f ≤ g →
    cGcdLoop f a b = some r → cGcdLoop g a b = some r := by
  intro f
  induction f with
  | zero => intro g a b r _ h; simp [cGcdLoop] at h
  | succ f ih =>
    intro g a b r hfg h
    obtain ⟨g', rfl⟩ : ∃ g', g = g' + 1 := ⟨g - 1, by omega⟩
    rw [cGcdLoop] at h ⊢
    by_cases hb : b = 0
    · rw [if_pos hb] at h ⊢; exact h
    · rw [if_neg hb] at h ⊢
      exact ih g' b (a.tmod b) r (by omega) h

theorem cGcdLoop_suffices : ∀ (f : Nat) (a b : Int), b.natAbs < f →
    ∃ r, cGcdLoop f a b = some r ∧ r.natAbs = Nat.gcd a.natAbs b.natAbs := by
  intro f
  induction f using Nat.strong_induction_on with
  | _ f ih =>
    intro a b hb
    obtain ⟨f', rfl⟩ : ∃ f', f = f' + 1 := ⟨f - 1, by omega⟩
    rw [cGcdLoop]
    rcases eq_or_ne b 0 with rfl | hbne
    · exact ⟨a, by simp⟩
    · have hlt : (a.tmod b).natAbs < b.natAbs := by
        rw [natAbs_tmod]
        exact Nat.mod_lt _ (by omega)
      obtain ⟨r, hr, habs⟩ := ih f' (by omega) b (a.tmod b) (by omega)
      refine ⟨r, by simp [if_neg hbne, hr], ?_⟩
      rw [habs, natAbs_tmod, Nat.gcd_comm b.natAbs, ← Nat.gcd_rec]
      exact Nat.gcd_comm _ _

/-- `static int gcd(int a, int b)` of `value.cpp`: make both arguments
non-negative (with `int` negation), then run Euclid's loop with the C++
`%`.  The fuel `(cAbs b).natAbs + 1` is provably sufficient
(`cGcdLoop_suffices`); `getD` only ever reads the `some`. -/
def cGcd (a b : Int) : Int :=
  (cGcdLoop ((cAbs b).natAbs + 1) (cAbs a) (cAbs b)).getD (cAbs a)

theorem cGcd_natAbs {a b : Int} (ha : inRange32 a) (hb : inRange32 b) :
    (cGcd a b).natAbs = Nat.gcd a.natAbs b.natAbs := by
  obtain ⟨r, hr, habs⟩ :=
    cGcdLoop_suffices ((cAbs b).natAbs + 1) (cAbs a) (cAbs b) (by omega)
  unfold cGcd
  rw [hr, Option.getD_some, habs, natAbs_cAbs ha, natAbs_cAbs hb]

/-- The `Rational` runtime value: the two `int` fields of `struct Rational`
in `value.cpp`. -/
structure CRational where
  numerator : Int
  denominator : Int
  deriving Repr, DecidableEq

/-- `Rational::Rational(int num, int den)` of `value.cpp`: reject a zero
denominator, divide both fields by the gcd of their magnitudes, then flip
both signs if the denominator came out negative.  All `int` arithmetic is
wrapped (the division and the negations can overflow only at `-2^31`). -/
def rationalMk (num den : Int) : Except String CRational :=
  if den = 0 then .error "Division by zero"
  else
    let g := cGcd num den
    let n1 := wrap32 (num.tdiv g)
    let d1 := wrap32 (den.tdiv g)
    if d1 < 0 then .ok ⟨wrap32 (-n1), wrap32 (-d1)⟩
    else .ok ⟨n1, d1⟩

theorem natAbs_wrap32_of_le {z : Int} (h : z.natAbs ≤ 2 ^ 31) :
    (wrap32 z).natAbs = z.natAbs := by
  rcases eq_or_ne z (2 ^ 31) with rfl | hne
  · decide
  · have : inRange32 z := by
      unfold inRange32
      rcases Int.natAbs_eq z with he | he <;> omega
    rw [wrap32_eq_self this]

/-- `Integer::show` of `value.cpp`: decimal text of the `int`. -/
def showInteger (n : Int) : String := toString n

/-- `Rational::show` of `value.cpp`: plain numerator when the denominator
is 1, `n/d` otherwise. -/
def showRational (r : CRational) : String :=
  if r.denominator = 1 then toString r.numerator
  else toString r.numerator ++ "/" ++ toString r.denominator

theorem rationalMk_fields {num den : Int} (hden : den ≠ 0) :
    rationalMk num den =
      (let g := cGcd num den
       let n1 := wrap32 (num.tdiv g)
       let d1 := wrap32 (den.tdiv g)
       if d1 < 0 then .ok ⟨wrap32 (-n1), wrap32 (-d1)⟩ else .ok ⟨n1, d1⟩) := by
  unfold rationalMk
  rw [if_neg hden]

theorem natAbs_le_of_inRange32 {z : Int} (h : inRange32 z) : z.natAbs ≤ 2 ^ 31 := by
  obtain ⟨h1, h2⟩ := h
  rcases Int.natAbs_eq z with he | he <;> omega

/-- C5, amended: every `Rational` the constructor of `value.cpp` produces
from in-range operands is in lowest terms with a strictly positive
denominator — except when `den = -2^31` and the numerator is coprime to it,
where the final `int` negation wraps and the denominator stays negative
(the counterexample below) — and a rational whose denominator is 1 prints
exactly the text of the corresponding integer. -/
theorem rational_normalized_pos_den (num den : Int)
    (hnum : inRange32 num) (hden : inRange32 den) (hden0 : den ≠ 0)
    (hexc : ¬(den = -2 ^ 31 ∧ Nat.gcd num.natAbs den.natAbs = 1)) :
    ∃ r, rationalMk num den = .ok r ∧
      Nat.gcd r.numerator.natAbs r.denominator.natAbs = 1 ∧
      0 < r.denominator ∧
      (r.denominator = 1 → showRational r = showInteger r.numerator) := by
  have hshow : ∀ r : CRational, r.denominator = 1 →
      showRational r = showInteger r.numerator := by
    intro r h1
    unfold showRational showInteger
    rw [if_pos h1]
  have hg : (cGcd num den).natAbs = Nat.gcd num.natAbs den.natAbs :=
    cGcd_natAbs hnum hden
  have hGpos : 0 < Nat.gcd num.natAbs den.natAbs :=
    Nat.gcd_pos_of_pos_right _ (Int.natAbs_pos.mpr hden0)
  have hn1 : (wrap32 (num.tdiv (cGcd num den))).natAbs =
      num.natAbs / Nat.gcd num.natAbs den.natAbs := by
    rw [natAbs_wrap32_of_le, natAbs_tdiv, hg]
    rw [natAbs_tdiv, hg]
    exact le_trans (Nat.div_le_self _ _) (natAbs_le_of_inRange32 hnum)
  have hd1 : (wrap32 (den.tdiv (cGcd num den))).natAbs =
      den.natAbs / Nat.gcd num.natAbs den.natAbs := by
    rw [natAbs_wrap32_of_le, natAbs_tdiv, hg]
    rw [natAbs_tdiv, hg]
    exact le_trans (Nat.div_le_self _ _) (natAbs_le_of_inRange32 hden)
  have hco : Nat.gcd (num.natAbs / Nat.gcd num.natAbs den.natAbs)
      (den.natAbs / Nat.gcd num.natAbs den.natAbs) = 1 :=
    Nat.coprime_div_gcd_div_gcd hGpos
  have hd1pos : 0 < den.natAbs / Nat.gcd num.natAbs den.natAbs :=
    Nat.div_pos (Nat.le_of_dvd (Int.natAbs_pos.mpr hden0) (Nat.gcd_dvd_right _ _))
      hGpos
  rw [rationalMk_fields hden0]
  dsimp only
  by_cases hneg : wrap32 (den.tdiv (cGcd num den)) < 0
  · rw [if_pos hneg]
    have hrn : inRange32 (wrap32 (num.tdiv (cGcd num den))) := wrap32_inRange _
    have hrd : inRange32 (wrap32 (den.tdiv (cGcd num den))) := wrap32_inRange _
    refine ⟨_, rfl, ?_, ?_, hshow _⟩
    · dsimp only
      rw [natAbs_wrap32_neg hrn, natAbs_wrap32_neg hrd, hn1, hd1]
      exact hco
    · dsimp only
      rcases eq_or_ne (wrap32 (den.tdiv (cGcd num den))) (-2 ^ 31) with hmin | hmin
      · exfalso
        have habs : den.natAbs / Nat.gcd num.natAbs den.natAbs = 2 ^ 31 := by
          rw [← hd1, hmin]; decide
        have hle : den.natAbs ≤ 2 ^ 31 := natAbs_le_of_inRange32 hden
        have hdvd : Nat.gcd num.natAbs den.natAbs ∣ den.natAbs :=
          Nat.gcd_dvd_right _ _
        have hmul : den.natAbs / Nat.gcd num.natAbs den.natAbs *
            Nat.gcd num.natAbs den.natAbs = den.natAbs := Nat.div_mul_cancel hdvd
        rw [habs] at hmul
        have hpow : (2 : ℕ) ^ 31 = 2147483648 := by norm_num
        have hG1 : Nat.gcd num.natAbs den.natAbs = 1 := by
          rw [hpow] at hmul
          rw [hpow] at hle
          omega
        have hdabs : den.natAbs = 2 ^ 31 := by
          rw [hG1, Nat.mul_one] at hmul
          exact hmul.symm
        have hdval : den = -2 ^ 31 := by
          obtain ⟨hl, hr⟩ := hden
          rcases Int.natAbs_eq den with he | he <;> omega
        exact hexc ⟨hdval, hG1⟩
      · have hrange : inRange32 (wrap32 (den.tdiv (cGcd num den))) := wrap32_inRange _
        obtain ⟨hl, hr⟩ := hrange
        have : inRange32 (-(wrap32 (den.tdiv (cGcd num den)))) := by
          constructor <;> omega
        rw [wrap32_eq_self this]
        omega
  · rw [if_neg hneg]
    refine ⟨_, rfl, ?_, ?_, hshow _⟩
    · dsimp only
      rw [hn1, hd1]
      exact hco
    · dsimp only
      have : (wrap32 (den.tdiv (cGcd num den))).natAbs ≠ 0 := by
        rw [hd1]; omega
      omega

/-- C5, counterexample: `RationalV(1, -2^31)` — reachable, e.g., as
`(/ 1 (* 32768 65536))`, whose wrapped product is `-2^31` — comes out of the
constructor with numerator -1 and denominator -2147483648: the denominator
is negative, so the value
is *not* normalized to a positive denominator as the claim states for every
produced rational. -/
theorem rational_negative_den_at_intmin :
    rationalMk 1 (-2147483648) = .ok ⟨-1, -2147483648⟩ ∧
      ¬(0 < (-2147483648 : Int)) := by
  constructor
  · have hfuel : cGcdLoop 4 (cAbs 1) (cAbs (-2147483648)) = some 1 := by decide
    have habs : ((cAbs (-2147483648)).natAbs + 1) = 2147483649 := by decide
    have hg : cGcd 1 (-2147483648) = 1 := by
      unfold cGcd
      rw [habs, cGcdLoop_stable 4 2147483649 _ _ 1 (by norm_num) hfuel]
      rfl
    unfold rationalMk
    rw [if_neg (by norm_num)]
    dsimp only
    rw [hg]
    rfl
  · decide

/-- Witness for `rational_normalized_pos_den` at `num = 4`, `den = -6`:
the constructor yields a normalized rational (in lowest terms, positive
denominator). -/
theorem rational_normalized_pos_den_witness :
    ∃ r, rationalMk 4 (-6) = .ok r ∧
      Nat.gcd r.numerator.natAbs r.denominator.natAbs = 1 ∧
      0 < r.denominator ∧
      (r.denominator = 1 → showRational r = showInteger r.numerator) :=
  rational_normalized_pos_den 4 (-6) (by decide) (by decide) (by decide)
    (by intro h; exact absurd h.1 (by decide))

/-! ## Syntax trees, expressions, values

`Syntax` nodes as delivered by the tokenizer (`syntax.hpp` variants), the
`Expr` variants of `expr.hpp`/`value.cpp`, and the runtime `Value` variants
of `value.hpp`. -/

/-- Syntax-tree nodes: `Number`, `RationalSyntax`, `StringSyntax`,
`SymbolSyntax`, `TrueSyntax`, `FalseSyntax`, `List`. -/
inductive Stx where
  | num (n : Int)
  | rat (numerator denominator : Int)
  | str (s : String)
  | sym (s : String)
  | boolS (b : Bool)
  | list (stxs : List Stx)
  deriving Repr

/-- The `ExprType` tags of `Def.hpp` (those referenced by the sources). -/
inductive ExprType where
  | E_FIXNUM | E_RATIONAL | E_STRING | E_TRUE | E_FALSE
  | E_PLUS | E_MINUS | E_MUL | E_DIV | E_MODULO | E_EXPT
  | E_LT | E_LE | E_EQ | E_GE | E_GT
  | E_AND | E_OR | E_NOT
  | E_VOID | E_EXIT
  | E_EQQ | E_BOOLQ | E_INTQ | E_NULLQ | E_PAIRQ | E_PROCQ
  | E_LISTQ | E_SYMBOLQ | E_STRINGQ
  | E_CONS | E_CAR | E_CDR | E_LIST | E_SETCAR | E_SETCDR
  | E_DISPLAY
  | E_BEGIN | E_QUOTE | E_IF | E_COND | E_LAMBDA | E_DEFINE
  | E_LET | E_LETREC | E_SET
  | E_VAR | E_APPLY
  deriving Repr, DecidableEq

/-- Expression nodes (the `Expr` class hierarchy of `expr.hpp`).  One
constructor per concrete C++ class; the `Unary`/`Binary`/`Variadic`
abstract bases become the kind predicates further below. -/
inductive Expr where
  | fixnum (n : Int)
  | rationalNum (numerator denominator : Int)
  | strE (s : String)
  | trueE
  | falseE
  | makeVoid
  | exitE
  | var (x : String)
  | quote (s : Stx)
  | ifE (cond conseq alter : Expr)
  | cond (clauses : List (List Expr))
  | begin (es : List Expr)
  | andVar (rands : List Expr)
  | orVar (rands : List Expr)
  | lambda (x : List String) (e : Expr)
  | apply (rator : Expr) (rand : List Expr)
  | define (var : String) (e : Expr)
  | setE (var : String) (e : Expr)
  | letE (bind : List (String × Expr)) (body : Expr)
  | letrec (bind : List (String × Expr)) (body : Expr)
  | plus (rand1 rand2 : Expr)
  | minus (rand1 rand2 : Expr)
  | mult (rand1 rand2 : Expr)
  | divE (rand1 rand2 : Expr)
  | modulo (rand1 rand2 : Expr)
  | expt (rand1 rand2 : Expr)
  | less (rand1 rand2 : Expr)
  | lessEq (rand1 rand2 : Expr)
  | equal (rand1 rand2 : Expr)
  | greaterEq (rand1 rand2 : Expr)
  | greater (rand1 rand2 : Expr)
  | isEq (rand1 rand2 : Expr)
  | cons (rand1 rand2 : Expr)
  | setCar (rand1 rand2 : Expr)
  | setCdr (rand1 rand2 : Expr)
  | plusVar (rands : List Expr)
  | minusVar (rands : List Expr)
  | multVar (rands : List Expr)
  | divVar (rands : List Expr)
  | lessVar (rands : List Expr)
  | lessEqVar (rands : List Expr)
  | equalVar (rands : List Expr)
  | greaterEqVar (rands : List Expr)
  | greaterVar (rands : List Expr)
  | listFunc (rands : List Expr)
  | car (rand : Expr)
  | cdr (rand : Expr)
  | notE (rand : Expr)
  | isBoolean (rand : Expr)
  | isFixnum (rand : Expr)
  | isNull (rand : Expr)
  | isPair (rand : Expr)
  | isProcedure (rand : Expr)
  | isSymbol (rand : Expr)
  | isString (rand : Expr)
  | isList (rand : Expr)
  | display (rand : Expr)
  deriving Repr

/-- Runtime values (`value.hpp`).  `procV` captures the environment as a
chain of (name, slot address) frames; slot contents live in the `Store`.
Pairs are structural here (see the file comment; mutation is the heap
model's concern). -/
inductive Value where
  | intV (n : Int)
  | ratV (numerator denominator : Int)
  | boolV (b : Bool)
  | symV (s : String)
  | strV (s : String)
  | nullV
  | pairV (carV cdrV : Value)
  | procV (parameters : List String) (body : Expr) (env : List (String × Nat))
  | voidV
  | terminateV
  deriving Repr

/-- An environment chain: the `Assoc`/`AssocList` spine, with each frame's
mutable `Value v` slot replaced by an address into the store. -/
abbrev Env := List (String × Nat)

/-- The store of environment slots.  `none` is the C++ `Value(nullptr)`
placeholder installed by `letrec`, internal `define`s and `Define::eval`
before the right-hand side is evaluated. -/
abbrev Store := List (Option Value)

/-- `find` of `value.cpp` restricted to the frame chain: innermost frame
binding the name. -/
def envLookup (x : String) : Env → Option Nat
  | [] => none
  | (y, a) :: rest => if y = x then some a else envLookup x rest

/-- `find(x, e)` of `value.cpp`: the value of the innermost frame binding
`x`; `none` both for an unbound name and for a bound-but-null slot (the C++
callers test `find(...).get() == nullptr`, which cannot tell the two
apart). -/
def findEnv (x : String) (env : Env) (st : Store) : Option Value :=
  match envLookup x env with
  | none => none
  | some a => st.getD a none

/-- `extend(x, v, lst)` of `value.cpp`: a fresh frame in front of the chain
whose slot is freshly allocated in the store. -/
def extendAlloc (x : String) (slot : Option Value) (env : Env) (st : Store) :
    Env × Store :=
  ((x, st.length) :: env, st ++ [slot])

/-- `modify(x, v, lst)` of `value.cpp`: overwrite the innermost slot
binding `x`; silently a no-op when no frame binds `x`. -/
def modifyStore (x : String) (v : Value) (env : Env) (st : Store) : Store :=
  match envLookup x env with
  | none => st
  | some a => st.set a (some v)

/-- The `primitives` map.  Modelled from the spec: the definition of the
`std::map<std::string, ExprType> primitives` table is not among the source
files under `src/`; its contents follow spec sections 3 and 4.2-4.3 (the
primitive operators and their names) together with the tags the parser and
`Var::eval` dispatch on (`and`/`or` are dispatched in the parser's
primitives branch, hence they live in this map, not in `reserved_words`). -/
def primitivesMap : List (String × ExprType) :=
  [("+", .E_PLUS), ("-", .E_MINUS), ("*", .E_MUL), ("/", .E_DIV),
   ("modulo", .E_MODULO), ("expt", .E_EXPT),
   ("<", .E_LT), ("<=", .E_LE), ("=", .E_EQ), (">=", .E_GE), (">", .E_GT),
   ("and", .E_AND), ("or", .E_OR), ("not", .E_NOT),
   ("void", .E_VOID), ("exit", .E_EXIT),
   ("eq?", .E_EQQ), ("boolean?", .E_BOOLQ), ("fixnum?", .E_INTQ),
   ("null?", .E_NULLQ), ("pair?", .E_PAIRQ), ("procedure?", .E_PROCQ),
   ("list?", .E_LISTQ), ("symbol?", .E_SYMBOLQ), ("string?", .E_STRINGQ),
   ("cons", .E_CONS), ("car", .E_CAR), ("cdr", .E_CDR), ("list", .E_LIST),
   ("set-car!", .E_SETCAR), ("set-cdr!", .E_SETCDR), ("display", .E_DISPLAY)]

/-- The `reserved_words` map.  Modelled from the spec (section 4.2's table
of reserved forms), minus `and`/`or` which the parser handles as
primitives; the tags are those the parser's `switch` dispatches on. -/
def reservedWordsMap : List (String × ExprType) :=
  [("begin", .E_BEGIN), ("quote", .E_QUOTE), ("if", .E_IF),
   ("cond", .E_COND), ("lambda", .E_LAMBDA), ("define", .E_DEFINE),
   ("let", .E_LET), ("letrec", .E_LETREC), ("set!", .E_SET)]

/-- `primitives.count(x) != 0` / `primitives[x]`. -/
def primLookup (x : String) : Option ExprType :=
  (primitivesMap.find? (fun p => p.1 = x)).map (·.2)

/-- `reserved_words.count(x) != 0` / `reserved_words[x]`. -/
def reservedLookup (x : String) : Option ExprType :=
  (reservedWordsMap.find? (fun p => p.1 = x)).map (·.2)

/-! ## Primitive operator semantics (the `evalRator` bodies)

Pure transcriptions of the operator bodies in `evaluation.cpp`; each throw
becomes an `Except.error` carrying the C++ message. -/

/-- `RationalV(num, den)` of `value.cpp` as a `Value`. -/
def rationalV (num den : Int) : Except String Value :=
  (rationalMk num den).map fun r => .ratV r.numerator r.denominator

/-- The unchecked `dynamic_cast<Integer*>(v.get())->n`; the callers below
apply it only after the value's type was tested. -/
def intOf : Value → Int
  | .intV n => n
  | _ => 0

/-- `Plus::evalRator` of `evaluation.cpp`. -/
def plusRator : Value → Value → Except String Value
  | .intV a, .intV b => .ok (.intV (wrap32 (a + b)))
  | .ratV a b, .intV n => rationalV (wrap32 (a + wrap32 (n * b))) b
  | .intV n, .ratV a b => rationalV (wrap32 (wrap32 (n * b) + a)) b
  | .ratV a b, .ratV c d =>
    let num := wrap32 (wrap32 (a * d) + wrap32 (c * b))
    let den := wrap32 (b * d)
    if den < 0 then rationalV (wrap32 (-num)) (wrap32 (-den))
    else rationalV num den
  | _, _ => .error "Type mismatch in addition"

/-- `Minus::evalRator` of `evaluation.cpp`. -/
def minusRator : Value → Value → Except String Value
  | .intV a, .intV b => .ok (.intV (wrap32 (a - b)))
  | .ratV a b, .intV n => rationalV (wrap32 (a - wrap32 (n * b))) b
  | .intV n, .ratV a b => rationalV (wrap32 (wrap32 (n * b) - a)) b
  | .ratV a b, .ratV c d =>
    let num := wrap32 (wrap32 (a * d) - wrap32 (c * b))
    let den := wrap32 (b * d)
    if den < 0 then rationalV (wrap32 (-num)) (wrap32 (-den))
    else rationalV num den
  | _, _ => .error "Type mismatch in subtraction"

/-- `Mult::evalRator` of `evaluation.cpp`. -/
def multRator : Value → Value → Except String Value
  | .intV a, .intV b => .ok (.intV (wrap32 (a * b)))
  | .ratV a b, .intV n => rationalV (wrap32 (a * n)) b
  | .intV n, .ratV a b => rationalV (wrap32 (n * a)) b
  | .ratV a b, .ratV c d =>
    let num := wrap32 (a * c)
    let den := wrap32 (b * d)
    if den < 0 then rationalV (wrap32 (-num)) (wrap32 (-den))
    else rationalV num den
  | _, _ => .error "Type mismatch in multiplication"

/-- `Div::evalRator` of `evaluation.cpp`. -/
def divRator : Value → Value → Except String Value
  | .intV a, .intV b =>
    if b = 0 then .error "Division by zero"
    else if b < 0 then rationalV (wrap32 (-a)) (wrap32 (-b))
    else rationalV a b
  | .ratV a b, .intV n =>
    if n = 0 then .error "Division by zero"
    else
      let num := a
      let den := wrap32 (b * n)
      if den < 0 then rationalV (wrap32 (-num)) (wrap32 (-den))
      else rationalV num den
  | .intV n, .ratV a b =>
    if a = 0 then .error "Division by zero"
    else
      let num := wrap32 (n * b)
      let den := a
      if den < 0 then rationalV (wrap32 (-num)) (wrap32 (-den))
      else rationalV num den
  | .ratV a b, .ratV c d =>
    if c = 0 then .error "Division by zero"
    else
      let num := wrap32 (a * d)
      let den := wrap32 (b * c)
      if den < 0 then rationalV (wrap32 (-num)) (wrap32 (-den))
      else rationalV num den
  | _, _ => .error "Type mismatch in division"

/-- `Modulo::evalRator` of `evaluation.cpp` (C++ `%` is truncated). -/
def moduloRator : Value → Value → Except String Value
  | .intV a, .intV b =>
    if b = 0 then .error "Division by zero"
    else .ok (.intV (a.tmod b))
  | _, _ => .error "modulo is only defined for integers"

/-- The `while (exp > 0)` square-and-multiply loop of `Expt::evalRator` in
`evaluation.cpp`.  `result` and `b` are the C++ `int` locals (wrapped at
each multiplication); the two overflow guards compare those already-wrapped
`int`s against `INT_MAX`/`INT_MIN` verbatim — as in the source, where they
can never fire.  The fuel (one unit per iteration, `exp` at least halving
each time) is chosen sufficient by the caller. -/
def exptLoop (fuel : Nat) (result b : Int) (exp : Nat) : Except String Int :=
  match fuel with
  | 0 => .error "expt loop fuel exhausted"
  | fuel + 1 =>
    if exp = 0 then .ok result
    else
      let step : Except String Int :=
        if exp % 2 = 1 then
          let r2 := wrap32 (result * b)
          if r2 > 2147483647 ∨ r2 < -2147483648 then
            .error "Integer overflow in expt"
          else .ok r2
        else .ok result
      match step with
      | .error e => .error e
      | .ok r2 =>
        let b2 := wrap32 (b * b)
        if (b2 > 2147483647 ∨ b2 < -2147483648) ∧ 1 < exp then
          .error "Integer overflow in expt"
        else exptLoop fuel r2 b2 (exp / 2)

/-- `Expt::evalRator` of `evaluation.cpp` (the revision under `src/`, whose
accumulator is an `int`). -/
def exptRator : Value → Value → Except String Value
  | .intV base, .intV exponent =>
    if exponent < 0 then .error "Negative exponent not supported for integers"
    else if base = 0 ∧ exponent = 0 then .error "0^0 is undefined"
    else (exptLoop (exponent.toNat + 1) 1 base exponent.toNat).map .intV
  | _, _ => .error "Type error in exponentiation"

/-- `compareNumericValues` of `evaluation.cpp`. -/
def compareNumeric : Value → Value → Except String Int
  | .intV a, .intV b => .ok (if a < b then -1 else if b < a then 1 else 0)
  | .ratV a b, .intV n =>
    let l := a
    let r := wrap32 (n * b)
    let l2 := if b < 0 then wrap32 (-l) else l
    let r2 := if b < 0 then wrap32 (-r) else r
    .ok (if l2 < r2 then -1 else if r2 < l2 then 1 else 0)
  | .intV n, .ratV a b =>
    let l := wrap32 (n * b)
    let r := a
    let l2 := if b < 0 then wrap32 (-l) else l
    let r2 := if b < 0 then wrap32 (-r) else r
    .ok (if l2 < r2 then -1 else if r2 < l2 then 1 else 0)
  | .ratV a b, .ratV c d =>
    let l := wrap32 (a * d)
    let r := wrap32 (c * b)
    let l2 := if b < 0 then wrap32 (-l) else l
    let r2 := if d < 0 then wrap32 (-r) else r
    .ok (if l2 < r2 then -1 else if r2 < l2 then 1 else 0)
  | _, _ => .error "Type error in numeric comparison"

/-- `Less::evalRator`. -/
def lessRator (v1 v2 : Value) : Except String Value :=
  (compareNumeric v1 v2).map fun c => .boolV (c < 0)

/-- `LessEq::evalRator` (its own case analysis in the source, not routed
through `compareNumericValues` except for two rationals). -/
def lessEqRator : Value → Value → Except String Value
  | .intV a, .intV b => .ok (.boolV (a ≤ b))
  | .ratV a b, .intV n =>
    if 0 < b then .ok (.boolV (a ≤ wrap32 (n * b)))
    else .ok (.boolV (wrap32 (n * b) ≤ a))
  | .intV n, .ratV a b =>
    if 0 < b then .ok (.boolV (wrap32 (n * b) ≤ a))
    else .ok (.boolV (a ≤ wrap32 (n * b)))
  | .ratV a b, .ratV c d =>
    (compareNumeric (.ratV a b) (.ratV c d)).map fun cp => .boolV (cp ≤ 0)
  | _, _ => .error "Type error in less than or equal comparison"

/-- `Equal::evalRator`. -/
def equalRator (v1 v2 : Value) : Except String Value :=
  (compareNumeric v1 v2).map fun c => .boolV (c = 0)

/-- `GreaterEq::evalRator`. -/
def greaterEqRator (v1 v2 : Value) : Except String Value :=
  (compareNumeric v1 v2).map fun c => .boolV (0 ≤ c)

/-- `Greater::evalRator`. -/
def greaterRator (v1 v2 : Value) : Except String Value :=
  (compareNumeric v1 v2).map fun c => .boolV (0 < c)

/-- The `has_rational` scan shared by the variadic arithmetic operators:
walk the arguments, stop (with `true`) at the first rational, fail on the
first non-numeric value seen before that, and answer `false` when every
argument is an integer.  Values after the first rational are not
type-checked — exactly the `break` in the C++ loop. -/
def scanNumeric (msg : String) : List Value → Except String Bool
  | [] => .ok false
  | .ratV _ _ :: _ => .ok true
  | .intV _ :: rest => scanNumeric msg rest
  | _ :: _ => .error msg

/-- The rational-accumulation loop of `PlusVar::evalRator` (non-numeric
values fall through both branches and are skipped, as in the source). -/
def plusVarRatLoop : List Value → Int → Int → Int × Int
  | [], num, den => (num, den)
  | .intV n :: rest, num, den =>
    plusVarRatLoop rest (wrap32 (num + wrap32 (n * den))) den
  | .ratV a b :: rest, num, den =>
    plusVarRatLoop rest (wrap32 (wrap32 (num * b) + wrap32 (a * den)))
      (wrap32 (den * b))
  | _ :: rest, num, den => plusVarRatLoop rest num den

/-- `PlusVar::evalRator` of `evaluation.cpp`. -/
def plusVarRator (args : List Value) : Except String Value :=
  if args.isEmpty then .ok (.intV 0)
  else
    match scanNumeric "Type error in variadic addition" args with
    | .error e => .error e
    | .ok true =>
      let (num, den) := plusVarRatLoop args 0 1
      rationalV num den
    | .ok false =>
      .ok (.intV (args.foldl (fun acc v => wrap32 (acc + intOf v)) 0))

/-- The rational-accumulation loop of `MinusVar::evalRator`. -/
def minusVarRatLoop : List Value → Int → Int → Int × Int
  | [], num, den => (num, den)
  | .intV n :: rest, num, den =>
    minusVarRatLoop rest (wrap32 (num - wrap32 (n * den))) den
  | .ratV a b :: rest, num, den =>
    minusVarRatLoop rest (wrap32 (wrap32 (num * b) - wrap32 (a * den)))
      (wrap32 (den * b))
  | _ :: rest, num, den => minusVarRatLoop rest num den

/-- `MinusVar::evalRator` of `evaluation.cpp`. -/
def minusVarRator (args : List Value) : Except String Value :=
  match args with
  | [] => .error "Wrong number of arguments for -"
  | [.intV n] => .ok (.intV (wrap32 (-n)))
  | [.ratV a b] => rationalV (wrap32 (-a)) b
  | [_] => .error "Type error in negation"
  | first :: rest =>
    match scanNumeric "Type error in variadic subtraction" (first :: rest) with
    | .error e => .error e
    | .ok true =>
      let (num0, den0) : Int × Int :=
        match first with
        | .intV n => (n, 1)
        | .ratV a b => (a, b)
        | _ => (0, 0)
      let (num, den) := minusVarRatLoop rest num0 den0
      rationalV num den
    | .ok false =>
      .ok (.intV (rest.foldl (fun acc v => wrap32 (acc - intOf v)) (intOf first)))

/-- The rational-accumulation loop of `MultVar::evalRator`. -/
def multVarRatLoop : List Value → Int → Int → Int × Int
  | [], num, den => (num, den)
  | .intV n :: rest, num, den => multVarRatLoop rest (wrap32 (num * n)) den
  | .ratV a b :: rest, num, den =>
    multVarRatLoop rest (wrap32 (num * a)) (wrap32 (den * b))
  | _ :: rest, num, den => multVarRatLoop rest num den

/-- `MultVar::evalRator` of `evaluation.cpp`. -/
def multVarRator (args : List Value) : Except String Value :=
  if args.isEmpty then .ok (.intV 1)
  else
    match scanNumeric "Type error in variadic multiplication" args with
    | .error e => .error e
    | .ok true =>
      let (num, den) := multVarRatLoop args 1 1
      rationalV num den
    | .ok false =>
      .ok (.intV (args.foldl (fun acc v => wrap32 (acc * intOf v)) 1))

/-- The divisor loop of `DivVar::evalRator` (`gcd_helper` in the source is
the same abs-then-Euclid routine as `value.cpp`'s `gcd`, so composing it
with `abs` is `cGcd` itself). -/
def divVarLoop : List Value → Int → Int → Except String (Int × Int)
  | [], num, den => .ok (num, den)
  | .intV d :: rest, num, den =>
    if d = 0 then .error "Division by zero"
    else
      let g1 := cGcd num d
      let (num2, d2) :=
        if 1 < g1 then (wrap32 (num.tdiv g1), wrap32 (d.tdiv g1)) else (num, d)
      divVarLoop rest num2 (wrap32 (den * d2))
  | .ratV a b :: rest, num, den =>
    if a = 0 then .error "Division by zero"
    else
      let g1 := cGcd num a
      let g2 := cGcd den b
      let (num2, den2) :=
        if 1 < g1 then
          (wrap32 (num.tdiv g1), wrap32 (den * wrap32 (a.tdiv g1)))
        else (num, wrap32 (den * a))
      let (num3, den3) :=
        if 1 < g2 then
          (wrap32 (num2 * wrap32 (b.tdiv g2)), wrap32 (den2.tdiv g2))
        else (wrap32 (num2 * b), den2)
      divVarLoop rest num3 den3
  | _ :: _, _, _ => .error "Type error in division"

/-- `DivVar::evalRator` of `evaluation.cpp`. -/
def divVarRator (args : List Value) : Except String Value :=
  match args with
  | [] => .error "Wrong number of arguments for /"
  | [.intV n] =>
    if n = 0 then .error "Division by zero" else rationalV 1 n
  | [.ratV a b] =>
    if a = 0 then .error "Division by zero" else rationalV b a
  | [_] => .error "Type error in reciprocal"
  | first :: rest =>
    match (match first with
           | .intV n => Except.ok ((n : Int), (1 : Int))
           | .ratV a b => Except.ok (a, b)
           | _ => Except.error "Type error in division") with
    | .error e => .error e
    | .ok (num0, den0) =>
      match divVarLoop rest num0 den0 with
      | .error e => .error e
      | .ok (num1, den1) =>
        let g := cGcd num1 den1
        let (num2, den2) :=
          if 1 < g then (wrap32 (num1.tdiv g), wrap32 (den1.tdiv g))
          else (num1, den1)
        let (num3, den3) :=
          if den2 < 0 then (wrap32 (-num2), wrap32 (-den2)) else (num2, den2)
        if den3 = 1 then .ok (.intV num3) else rationalV num3 den3

/-- The chained comparison loop shared by `LessVar`/`LessEqVar`/... ;
`keep c` is the per-operator test on `compareNumericValues`' result, and
`msg` the per-operator type error.  The adjacent-type test of the source
(`!= V_INT && != V_RATIONAL`) is what `compareNumeric`'s failure case is,
so a non-numeric element surfaces the loop's own message. -/
def compareVarLoop (msg : String) (keep : Int → Bool) :
    List Value → Except String Value
  | [] => .ok (.boolV true)
  | [_] => .ok (.boolV true)
  | v1 :: v2 :: rest =>
    if (v1 matches .intV _ ∨ v1 matches .ratV _ _) ∧
       (v2 matches .intV _ ∨ v2 matches .ratV _ _) then
      match compareNumeric v1 v2 with
      | .error e => .error e
      | .ok c =>
        if keep c then compareVarLoop msg keep (v2 :: rest)
        else .ok (.boolV false)
    else .error msg

/-- `LessVar::evalRator` of `evaluation.cpp`. -/
def lessVarRator (args : List Value) : Except String Value :=
  if args.length < 2 then .error "< requires at least 2 arguments"
  else compareVarLoop "Type error in variadic less than" (fun c => c < 0) args

/-- `LessEqVar::evalRator`. -/
def lessEqVarRator (args : List Value) : Except String Value :=
  if args.length < 2 then .error "<= requires at least 2 arguments"
  else compareVarLoop "Type error in variadic less than or equal"
    (fun c => c ≤ 0) args

/-- `EqualVar::evalRator`. -/
def equalVarRator (args : List Value) : Except String Value :=
  if args.length < 2 then .error "= requires at least 2 arguments"
  else compareVarLoop "Type error in variadic equality" (fun c => c = 0) args

/-- `GreaterEqVar::evalRator`. -/
def greaterEqVarRator (args : List Value) : Except String Value :=
  if args.length < 2 then .error ">= requires at least 2 arguments"
  else compareVarLoop "Type error in variadic greater than or equal"
    (fun c => 0 ≤ c) args

/-- `GreaterVar::evalRator`. -/
def greaterVarRator (args : List Value) : Except String Value :=
  if args.length < 2 then .error "> requires at least 2 arguments"
  else compareVarLoop "Type error in variadic greater than" (fun c => 0 < c) args

/-- `Cons::evalRator`. -/
def consRator (v1 v2 : Value) : Except String Value := .ok (.pairV v1 v2)

/-- `ListFunc::evalRator`: right fold into `Null`. -/
def listFuncRator (args : List Value) : Except String Value :=
  if args.isEmpty then .ok .nullV
  else .ok (args.foldr .pairV .nullV)

/-- Proper-list test on structural values: the chain of cdrs ends in
`Null`. -/
def properListB : Value → Bool
  | .nullV => true
  | .pairV _ d => properListB d
  | _ => false

/-- `IsList::evalRator` on the structural (immutable) values of the main
model.  The source walks the structure with a fast/slow pointer pair; on
values that are trees — and without `set-car!`/`set-cdr!` no others can
reach it here — that walk terminates and returns exactly "the cdr chain
ends in Null".  The walk itself, on possibly cyclic heaps, is transcribed
verbatim and verified in the `HeapModel` section below. -/
def isListRator (v : Value) : Except String Value :=
  .ok (.boolV (properListB v))

/-- `Car::evalRator`. -/
def carRator : Value → Except String Value
  | .pairV a _ => .ok a
  | _ => .error "Type error: car requires a pair"

/-- `Cdr::evalRator`. -/
def cdrRator : Value → Except String Value
  | .pairV _ d => .ok d
  | _ => .error "Type error: cdr requires a pair"

/-- `SetCar::evalRator` mutates its pair argument in place; structural
values cannot express that aliasing, so the main model rejects the case
outright instead of modelling it wrongly (pair mutation is the heap
model's concern; no claim evaluates this operator in the main model). -/
def setCarRator (v1 : Value) (_ : Value) : Except String Value :=
  match v1 with
  | .pairV _ _ => .error "set-car! mutation is outside the structural model"
  | _ => .error "set-car!: argument must be a pair"

/-- `SetCdr::evalRator`; same remark as `setCarRator`. -/
def setCdrRator (v1 : Value) (_ : Value) : Except String Value :=
  match v1 with
  | .pairV _ _ => .error "set-cdr! mutation is outside the structural model"
  | _ => .error "set-cdr!: argument must be a pair"

/-- `IsEq::evalRator`: structural on integers, booleans, symbols, null and
void; pointer identity otherwise.  Pointer identity is not expressible on
structural values, so that fall-through is rejected rather than modelled
wrongly (no claim evaluates it). -/
def isEqRator : Value → Value → Except String Value
  | .intV a, .intV b => .ok (.boolV (a = b))
  | .boolV a, .boolV b => .ok (.boolV (a = b))
  | .symV a, .symV b => .ok (.boolV (a = b))
  | .nullV, .nullV => .ok (.boolV true)
  | .voidV, .voidV => .ok (.boolV true)
  | _, _ => .error "eq? pointer identity is outside the structural model"

/-- `IsBoolean::evalRator`. -/
def isBooleanRator (v : Value) : Except String Value :=
  .ok (.boolV (v matches .boolV _))

/-- `IsFixnum::evalRator`. -/
def isFixnumRator (v : Value) : Except String Value :=
  .ok (.boolV (v matches .intV _))

/-- `IsNull::evalRator`. -/
def isNullRator (v : Value) : Except String Value :=
  .ok (.boolV (v matches .nullV))

/-- `IsPair::evalRator`. -/
def isPairRator (v : Value) : Except String Value :=
  .ok (.boolV (v matches .pairV _ _))

/-- `IsProcedure::evalRator`. -/
def isProcedureRator (v : Value) : Except String Value :=
  .ok (.boolV (v matches .procV _ _ _))

/-- `IsSymbol::evalRator`. -/
def isSymbolRator (v : Value) : Except String Value :=
  .ok (.boolV (v matches .symV _))

/-- `IsString::evalRator`. -/
def isStringRator (v : Value) : Except String Value :=
  .ok (.boolV (v matches .strV _))

/-- `Not::evalRator`: true exactly on the boolean false. -/
def notRator (v : Value) : Except String Value :=
  match v with
  | .boolV false => .ok (.boolV true)
  | _ => .ok (.boolV false)

/-- `Display::evalRator`: writes to standard output (not modelled) and
returns `Void`. -/
def displayRator (_ : Value) : Except String Value := .ok .voidV

/-! ## Quote: syntax to value (`Quote::eval` of `evaluation.cpp`) -/

/-- Is a syntax node the dot symbol of a dotted pair. -/
def isDotSym : Stx → Bool
  | .sym s => s = "."
  | _ => false

/-- The last index holding a dot symbol (the C++ loop keeps overwriting
`pos`), paired with the dot count `cnt`. -/
def dotScan (xs : List Stx) : Option Nat × Nat :=
  xs.enum.foldl
    (fun (acc : Option Nat × Nat) (p : Nat × Stx) =>
      if isDotSym p.2 then (some p.1, acc.2 + 1) else acc)
    (none, 0)

/-- `Quote::eval` of `evaluation.cpp`: syntax to value, with the dotted
pair rules.  The environment argument of the C++ method is unused.  The
fuel is threaded from the evaluator's own fuel; every call consumes one
unit per syntax node visited, so any fuel beyond the node count of the
tree is sufficient. -/
def quoteValF (fuel : Nat) (s : Stx) : Except String Value :=
  match fuel with
  | 0 => .error "quote fuel exhausted"
  | fuel + 1 =>
    match s with
    | .boolS true => .ok (.boolV true)
    | .boolS false => .ok (.boolV false)
    | .num n => .ok (.intV n)
    | .sym x => .ok (.symV x)
    | .str x => .ok (.strV x)
    | .list [] => .ok .nullV
    | .list [x] =>
      match quoteValF fuel x with
      | .ok v => .ok (.pairV v .nullV)
      | .error e => .error e
    | .list xs =>
      let len := xs.length
      let (pos, cnt) := dotScan xs
      if (1 < cnt ∨ (pos ≠ some (len - 2) ∧ cnt ≠ 0)) ∨ (cnt = 1 ∧ len < 3) then
        .error "Parm isn't fit"
      else
        match xs with
        | [a, d, b] =>
          if isDotSym d then
            match quoteValF fuel a with
            | .error e => .error e
            | .ok va =>
              match quoteValF fuel b with
              | .error e => .error e
              | .ok vb => .ok (.pairV va vb)
          else
            match quoteValF fuel a with
            | .error e => .error e
            | .ok va =>
              match quoteValF fuel (.list [d, b]) with
              | .error e => .error e
              | .ok vrest => .ok (.pairV va vrest)
        | a :: rest =>
          match quoteValF fuel a with
          | .error e => .error e
          | .ok va =>
            match quoteValF fuel (.list rest) with
            | .error e => .error e
            | .ok vrest => .ok (.pairV va vrest)
        | [] => .ok .nullV
    | .rat _ _ => .error "Unknown quoted typename"

/-! ## The parser (`List::parse` and friends, `parser.cpp`)

`parseF` is fuelled (one unit per recursion step of the C++ parser); the
helpers are parameterized by the sub-parser so that `parseF` recurses
structurally on the fuel alone.  Parsing reads the environment (to detect
shadowing) and allocates placeholder slots for binder scopes, but never
mutates the caller's environment, so `parseF` returns only the expression. -/

/-- Result of parsing one syntax node. -/
inductive ParseOut where
  | ok (e : Expr)
  | err (msg : String)
  | out
  deriving Repr

/-- Result of parsing a sequence of operand syntax nodes. -/
inductive ParseListOut where
  | ok (es : List Expr)
  | err (msg : String)
  | out
  deriving Repr

/-- Parse each operand in order, propagating the first failure (the
`for (i = 1; ...) parameters.push_back(stxs[i]->parse(env))` loops). -/
def parseListWith (p : Stx → Env → Store → ParseOut) :
    List Stx → Env → Store → ParseListOut
  | [], _, _ => .ok []
  | s :: rest, env, st =>
    match p s env st with
    | .ok e =>
      match parseListWith p rest env st with
      | .ok es => .ok (e :: es)
      | .err m => .err m
      | .out => .out
    | .err m => .err m
    | .out => .out

/-- Result of processing a lambda parameter list. -/
inductive ParamsOut where
  | ok (names : List String) (env : Env) (st : Store)
  | err (msg : String)
  | out
  deriving Repr

/-- The parameter loop of the `E_LAMBDA` case: parse each parameter in the
*original* environment, insist the result is a `Var`, and extend the body
environment with a `NullV` placeholder slot per parameter. -/
def lambdaParamsWith (p : Stx → Env → Store → ParseOut) (env : Env) (st : Store) :
    List Stx → Env → Store → ParamsOut
  | [], accEnv, accSt => .ok [] accEnv accSt
  | s :: rest, accEnv, accSt =>
    match p s env st with
    | .ok (.var x) =>
      let (e2, s2) := extendAlloc x (some .nullV) accEnv accSt
      match lambdaParamsWith p env st rest e2 s2 with
      | .ok names envF stF => .ok (x :: names) envF stF
      | .err m => .err m
      | .out => .out
    | .ok _ => .err "Invalid parameter in lambda"
    | .err m => .err m
    | .out => .out

/-- Result of parsing a cond clause list. -/
inductive ClausesOut where
  | ok (clauses : List (List Expr))
  | err (msg : String)
  | out
  deriving Repr

/-- The clause loop of the `E_COND` case: each clause must be a non-empty
syntax list, whose members are parsed in order. -/
def condClausesWith (p : Stx → Env → Store → ParseOut) (env : Env) (st : Store) :
    List Stx → ClausesOut
  | [] => .ok []
  | .list [] :: _ => .err "Invalid cond clause structure"
  | .list cl :: rest =>
    match parseListWith p cl env st with
    | .ok es =>
      match condClausesWith p env st rest with
      | .ok cls => .ok (es :: cls)
      | .err m => .err m
      | .out => .out
    | .err m => .err m
    | .out => .out
  | _ :: _ => .err "Invalid cond clause structure"

/-- Result of processing a let binding list. -/
inductive BindsOut where
  | ok (binds : List (String × Expr)) (env : Env) (st : Store)
  | err (msg : String)
  | out
  deriving Repr

/-- The binder loop of the `E_LET` case: each binder is `(name rhs)`; the
right-hand side is parsed in the *original* environment, and the local
environment for the body accumulates a `NullV` placeholder per name. -/
def letBindsWith (p : Stx → Env → Store → ParseOut) (env : Env) (st : Store) :
    List Stx → Env → Store → BindsOut
  | [], accEnv, accSt => .ok [] accEnv accSt
  | .list [nameStx, rhsStx] :: rest, accEnv, accSt =>
    match nameStx with
    | .sym x =>
      match p rhsStx env st with
      | .ok rhs =>
        let (e2, s2) := extendAlloc x (some .nullV) accEnv accSt
        match letBindsWith p env st rest e2 s2 with
        | .ok binds envF stF => .ok ((x, rhs) :: binds) envF stF
        | .err m => .err m
        | .out => .out
      | .err m => .err m
      | .out => .out
    | _ => .err "Invalid identifier in let binding"
  | _ :: _, _, _ => .err "Invalid let binding format"

/-- First pass of the `E_LETREC` case: validate every binder's shape and
extend the environment with a `NullV` placeholder per name. -/
def letrecNamesPass : List Stx → Env → Store → Except String (Env × Store)
  | [], accEnv, accSt => .ok (accEnv, accSt)
  | .list [nameStx, _] :: rest, accEnv, accSt =>
    match nameStx with
    | .sym x =>
      let (e2, s2) := extendAlloc x (some .nullV) accEnv accSt
      letrecNamesPass rest e2 s2
    | _ => .error "Invalid identifier in letrec binding"
  | _ :: _, _, _ => .error "Invalid letrec binding format"

/-- Second pass of the `E_LETREC` case: parse every right-hand side in the
extended environment (the shapes were validated by the first pass). -/
def letrecRhsWith (p : Stx → Env → Store → ParseOut) (env : Env) (st : Store) :
    List Stx → BindsOut
  | [] => .ok [] env st
  | .list [.sym x, rhsStx] :: rest =>
    match p rhsStx env st with
    | .ok rhs =>
      match letrecRhsWith p env st rest with
      | .ok binds e2 s2 => .ok ((x, rhs) :: binds) e2 s2
      | .err m => .err m
      | .out => .out
    | .err m => .err m
    | .out => .out
  | _ :: _ => .err "Invalid letrec binding format"

/-- The parameter list of the function-sugar `define` shape: every element
must be a symbol. -/
def defineParams : List Stx → Except String (List String)
  | [] => .ok []
  | .sym x :: rest => (defineParams rest).map (x :: ·)
  | _ :: _ => .error "Invalid parameter in function definition"

/-- The primitive-operator dispatch of `List::parse` (`parser.cpp` lines
77-171): given the tag of an unshadowed primitive head and the parsed
operands, build the operator node; `+` and `*` with a single operand
return the operand itself; the tags outside the `if`-chain fall through to
a free application of the head. -/
def primDispatch (tag : ExprType) (headExpr : Expr) (params : List Expr) :
    ParseOut :=
  match tag with
  | .E_PLUS =>
    match params with
    | [] => .ok (.plusVar [])
    | [e] => .ok e
    | [e1, e2] => .ok (.plus e1 e2)
    | _ => .ok (.plusVar params)
  | .E_MINUS =>
    match params with
    | [] => .err "Insufficient arguments for subtraction"
    | [e] => .ok (.minusVar [e])
    | [e1, e2] => .ok (.minus e1 e2)
    | _ => .ok (.minusVar params)
  | .E_MUL =>
    match params with
    | [] => .ok (.multVar [])
    | [e] => .ok e
    | [e1, e2] => .ok (.mult e1 e2)
    | _ => .ok (.multVar params)
  | .E_DIV =>
    match params with
    | [] => .err "Insufficient arguments for division"
    | [e] => .ok (.divVar [e])
    | [e1, e2] => .ok (.divE e1 e2)
    | _ => .ok (.divVar params)
  | .E_MODULO =>
    match params with
    | [e1, e2] => .ok (.modulo e1 e2)
    | _ => .err "Modulo requires exactly two arguments"
  | .E_LIST => .ok (.listFunc params)
  | .E_LT =>
    match params with
    | [] => .err "Less than requires at least two arguments"
    | [_] => .err "Less than requires at least two arguments"
    | [e1, e2] => .ok (.less e1 e2)
    | _ => .ok (.lessVar params)
  | .E_LE =>
    match params with
    | [] => .err "Less equal requires at least two arguments"
    | [_] => .err "Less equal requires at least two arguments"
    | [e1, e2] => .ok (.lessEq e1 e2)
    | _ => .ok (.lessEqVar params)
  | .E_EQ =>
    match params with
    | [] => .err "Equal requires at least two arguments"
    | [_] => .err "Equal requires at least two arguments"
    | [e1, e2] => .ok (.equal e1 e2)
    | _ => .ok (.equalVar params)
  | .E_GE =>
    match params with
    | [] => .err "Greater equal requires at least two arguments"
    | [_] => .err "Greater equal requires at least two arguments"
    | [e1, e2] => .ok (.greaterEq e1 e2)
    | _ => .ok (.greaterEqVar params)
  | .E_GT =>
    match params with
    | [] => .err "Greater than requires at least two arguments"
    | [_] => .err "Greater than requires at least two arguments"
    | [e1, e2] => .ok (.greater e1 e2)
    | _ => .ok (.greaterVar params)
  | .E_AND => .ok (.andVar params)
  | .E_OR => .ok (.orVar params)
  | _ => .ok (.apply headExpr params)

/-- The reserved-form dispatch of `List::parse` (`parser.cpp` lines
174-344), factored over the sub-parser `p`.  `op` is the head symbol, `t`
the operand syntax list. -/
def reservedDispatch (p : Stx → Env → Store → ParseOut) (tag : ExprType)
    (op : String) (t : List Stx) (env : Env) (st : Store) : ParseOut :=
  match tag with
  | .E_BEGIN =>
    match parseListWith p t env st with
    | .ok es => .ok (.begin es)
    | .err m => .err m
    | .out => .out
  | .E_QUOTE =>
    match t with
    | [q] => .ok (.quote q)
    | _ => .err "Quote requires exactly one argument"
  | .E_IF =>
    match t with
    | [c, th, el] =>
      match p c env st with
      | .ok ec =>
        match p th env st with
        | .ok et =>
          match p el env st with
          | .ok ee => .ok (.ifE ec et ee)
          | .err m => .err m
          | .out => .out
        | .err m => .err m
        | .out => .out
      | .err m => .err m
      | .out => .out
    | _ => .err "If requires three arguments"
  | .E_COND =>
    if t.isEmpty then .err "Cond requires at least one clause"
    else
      match condClausesWith p env st t with
      | .ok cls => .ok (.cond cls)
      | .err m => .err m
      | .out => .out
  | .E_LAMBDA =>
    match t with
    | paramsStx :: body1 :: bodyRest =>
      match paramsStx with
      | .list ps =>
        match lambdaParamsWith p env st ps env st with
        | .ok vars newEnv newSt =>
          match bodyRest with
          | [] =>
            match p body1 newEnv newSt with
            | .ok eb => .ok (.lambda vars eb)
            | .err m => .err m
            | .out => .out
          | _ =>
            match parseListWith p (body1 :: bodyRest) newEnv newSt with
            | .ok ebs => .ok (.lambda vars (.begin ebs))
            | .err m => .err m
            | .out => .out
        | .err m => .err m
        | .out => .out
      | _ => .err "Invalid lambda parameter list"
    | _ => .err "Lambda requires parameters and body"
  | .E_DEFINE =>
    match t with
    | target :: body1 :: bodyRest =>
      match target with
      | .list fn =>
        match fn with
        | [] => .err "Function definition requires name and parameters"
        | fnName :: fnParams =>
          match fnName with
          | .sym name =>
            match defineParams fnParams with
            | .error m => .err m
            | .ok paramNames =>
              match bodyRest with
              | [] =>
                match p body1 env st with
                | .ok eb => .ok (.define name (.lambda paramNames eb))
                | .err m => .err m
                | .out => .out
              | _ =>
                match parseListWith p (body1 :: bodyRest) env st with
                | .ok ebs =>
                  .ok (.define name (.lambda paramNames (.begin ebs)))
                | .err m => .err m
                | .out => .out
          | _ => .err "Invalid function name in define"
      | _ =>
        match bodyRest with
        | [] =>
          match target with
          | .sym x =>
            match p body1 env st with
            | .ok e => .ok (.define x e)
            | .err m => .err m
            | .out => .out
          | _ => .err "Invalid variable name in define"
        | _ => .err "Variable define requires exactly two arguments"
    | _ => .err "Define requires variable and expression"
  | .E_LET =>
    match t with
    | [bindersStx, bodyStx] =>
      match bindersStx with
      | .list binders =>
        match letBindsWith p env st binders env st with
        | .ok binds localEnv localSt =>
          match p bodyStx localEnv localSt with
          | .ok eb => .ok (.letE binds eb)
          | .err m => .err m
          | .out => .out
        | .err m => .err m
        | .out => .out
      | _ => .err "Invalid let binding list"
    | _ => .err "Let requires bindings and body"
  | .E_LETREC =>
    match t with
    | [bindersStx, bodyStx] =>
      match bindersStx with
      | .list binders =>
        match letrecNamesPass binders env st with
        | .error m => .err m
        | .ok (tempEnv, tempSt) =>
          match letrecRhsWith p tempEnv tempSt binders with
          | .ok binds _ _ =>
            match p bodyStx tempEnv tempSt with
            | .ok eb => .ok (.letrec binds eb)
            | .err m => .err m
            | .out => .out
          | .err m => .err m
          | .out => .out
      | _ => .err "Invalid letrec binding list"
    | _ => .err "Letrec requires bindings and body"
  | .E_SET =>
    match t with
    | [targetStx, rhsStx] =>
      match targetStx with
      | .sym x =>
        match p rhsStx env st with
        | .ok e => .ok (.setE x e)
        | .err m => .err m
        | .out => .out
      | _ => .err "Invalid variable name in set"
    | _ => .err "Set requires variable and expression"
  | _ => .err ("Unknown reserved word: " ++ op)

/-- `Syntax::parse` (each subclass's override, `parser.cpp`).  Fuelled:
one unit per recursion step of the C++ parser; recursion is structural on
the fuel alone.  Atomic syntax parses to the matching literal or `Var`; a
`List` dispatches on its head: shadowed-symbol application first, then
primitive operators, then reserved forms, then free application. -/
def parseF (fuel : Nat) (s : Stx) (env : Env) (st : Store) : ParseOut :=
  match fuel with
  | 0 => .out
  | fuel + 1 =>
    match s with
    | .num n => .ok (.fixnum n)
    | .rat a b => .ok (.rationalNum a b)
    | .sym x => .ok (.var x)
    | .str x => .ok (.strE x)
    | .boolS true => .ok .trueE
    | .boolS false => .ok .falseE
    | .list [] => .ok (.quote (.list []))
    | .list (h :: t) =>
      match h with
      | .sym op =>
        if (findEnv op env st).isSome then
          match parseListWith (parseF fuel) t env st with
          | .ok params =>
            match parseF fuel (.sym op) env st with
            | .ok headExpr => .ok (.apply headExpr params)
            | .err m => .err m
            | .out => .out
          | .err m => .err m
          | .out => .out
        else
          match primLookup op with
          | some tag =>
            match parseListWith (parseF fuel) t env st with
            | .ok params => primDispatch tag (.var op) params
            | .err m => .err m
            | .out => .out
          | none =>
            match reservedLookup op with
            | some tag => reservedDispatch (parseF fuel) tag op t env st
            | none =>
              match parseF fuel (.sym op) env st with
              | .ok headExpr =>
                match parseListWith (parseF fuel) t env st with
                | .ok params => .ok (.apply headExpr params)
                | .err m => .err m
                | .out => .out
              | .err m => .err m
              | .out => .out
      | _ =>
        match parseListWith (parseF fuel) t env st with
        | .ok params =>
          match parseF fuel h env st with
          | .ok headExpr => .ok (.apply headExpr params)
          | .err m => .err m
          | .out => .out
        | .err m => .err m
        | .out => .out

/-! ## The evaluator (`evaluation.cpp`)

`eval` is fuelled (one unit per `Expr::eval` activation); the loop helpers
are parameterized by the sub-evaluator so that `eval` recurses structurally
on the fuel alone.  An `EvalOut.ok` carries the value, the (possibly
reassigned, see `Define::eval`) environment of the caller's reference, and
the store; an `EvalOut.err` is a thrown `RuntimeError` carrying the
environment and store at the throw point. -/

/-- Result of one evaluation. -/
inductive EvalOut where
  | ok (v : Value) (env : Env) (st : Store)
  | err (msg : String) (env : Env) (st : Store)
  | out
  deriving Repr

/-- Result of evaluating an operand list. -/
inductive ArgsOut where
  | ok (vs : List Value) (env : Env) (st : Store)
  | err (msg : String) (env : Env) (st : Store)
  | out
  deriving Repr

/-- Inject a pure operator result at the current environment and store. -/
def liftR (r : Except String Value) (env : Env) (st : Store) : EvalOut :=
  match r with
  | .ok v => .ok v env st
  | .error m => .err m env st

/-- The falsity test `v_type == V_BOOL && b == false`: exactly the
boolean false value; everything else is truthy. -/
def isFalseV : Value → Bool
  | .boolV false => true
  | _ => false

/-- `dynamic_cast<Variadic*>` — the classes deriving `Variadic` in
`value.cpp` (note: `AndVar`/`OrVar` derive `ExprBase` directly, so they are
*not* variadic nodes). -/
def isVariadicNode : Expr → Bool
  | .plusVar _ | .minusVar _ | .multVar _ | .divVar _
  | .lessVar _ | .lessEqVar _ | .equalVar _ | .greaterEqVar _
  | .greaterVar _ | .listFunc _ => true
  | _ => false

/-- `dynamic_cast<Binary*>` — the classes deriving `Binary`. -/
def isBinaryNode : Expr → Bool
  | .plus _ _ | .minus _ _ | .mult _ _ | .divE _ _ | .modulo _ _
  | .expt _ _ | .less _ _ | .lessEq _ _ | .equal _ _ | .greaterEq _ _
  | .greater _ _ | .cons _ _ | .setCar _ _ | .setCdr _ _ | .isEq _ _ => true
  | _ => false

/-- `dynamic_cast<Unary*>` — the classes deriving `Unary`. -/
def isUnaryNode : Expr → Bool
  | .car _ | .cdr _ | .notE _ | .isBoolean _ | .isFixnum _ | .isNull _
  | .isPair _ | .isProcedure _ | .isSymbol _ | .isString _ | .isList _
  | .display _ => true
  | _ => false

/-- `variadic_op->evalRator(args)`: dispatch on the variadic node's
dynamic class (the node's own operands are ignored, as in the call). -/
def variadicRatorOf : Expr → List Value → Except String Value
  | .plusVar _, args => plusVarRator args
  | .minusVar _, args => minusVarRator args
  | .multVar _, args => multVarRator args
  | .divVar _, args => divVarRator args
  | .lessVar _, args => lessVarRator args
  | .lessEqVar _, args => lessEqVarRator args
  | .equalVar _, args => equalVarRator args
  | .greaterEqVar _, args => greaterEqVarRator args
  | .greaterVar _, args => greaterVarRator args
  | .listFunc _, args => listFuncRator args
  | _, _ => .error "not a variadic operator node"

/-- The `switch (type_name)` of `Var::eval` building the wrapper body for a
primitive referenced in value position.  Total over the tags stored in
`primitivesMap`; `none` for tags that are not primitive tags (never reached
through the map). -/
def primWrapperExpr : ExprType → Option Expr
  | .E_MUL => some (.multVar [])
  | .E_MINUS => some (.minusVar [])
  | .E_PLUS => some (.plusVar [])
  | .E_DIV => some (.divVar [])
  | .E_MODULO => some (.modulo (.var "parm1") (.var "parm2"))
  | .E_LT => some (.lessVar [])
  | .E_LE => some (.lessEqVar [])
  | .E_EQ => some (.equalVar [])
  | .E_GE => some (.greaterEqVar [])
  | .E_GT => some (.greaterVar [])
  | .E_VOID => some .makeVoid
  | .E_EQQ => some (.isEq (.var "parm1") (.var "parm2"))
  | .E_BOOLQ => some (.isBoolean (.var "parm"))
  | .E_INTQ => some (.isFixnum (.var "parm"))
  | .E_NULLQ => some (.isNull (.var "parm"))
  | .E_PAIRQ => some (.isPair (.var "parm"))
  | .E_PROCQ => some (.isProcedure (.var "parm"))
  | .E_LISTQ => some (.isList (.var "parm"))
  | .E_SYMBOLQ => some (.isSymbol (.var "parm"))
  | .E_STRINGQ => some (.isString (.var "parm"))
  | .E_CONS => some (.cons (.var "parm1") (.var "parm2"))
  | .E_EXPT => some (.expt (.var "parm1") (.var "parm2"))
  | .E_NOT => some (.notE (.var "parm"))
  | .E_CAR => some (.car (.var "parm"))
  | .E_CDR => some (.cdr (.var "parm"))
  | .E_SETCAR => some (.setCar (.var "parm1") (.var "parm2"))
  | .E_SETCDR => some (.setCdr (.var "parm1") (.var "parm2"))
  | .E_DISPLAY => some (.display (.var "parm"))
  | .E_EXIT => some .exitE
  | .E_AND => some (.andVar [])
  | .E_OR => some (.orVar [])
  | .E_LIST => some (.listFunc [])
  | _ => none

/-- The parameter list of a primitive wrapper procedure: the
`dynamic_cast` chain of `Var::eval` (variadic nodes get the single
parameter `"args"`, binary nodes `"parm1"/"parm2"`, unary nodes `"parm"`,
anything else — `void`, `exit`, `and`, `or` — no parameters). -/
def wrapperParams (e : Expr) : List String :=
  if isVariadicNode e then ["args"]
  else if isBinaryNode e then ["parm1", "parm2"]
  else if isUnaryNode e then ["parm"]
  else []

/-- The identifier checks at the top of `Var::eval`: `some msg` when the
name is rejected with a `RuntimeError msg`. -/
def varNameCheck (x : String) : Option String :=
  match x.data with
  | [] => some "Malformed variable identifier"
  | c :: _ =>
    if c.isDigit ∨ c = '.' ∨ c = '@' then some "Malformed variable identifier"
    else if x.data.contains '#' then some "unbound variable"
    else none

/-- Operand loop of `Variadic::eval` / `Apply::eval`: evaluate left to
right, threading the by-reference environment and the store. -/
def evalArgsWith (ev : Expr → Env → Store → EvalOut) :
    List Expr → Env → Store → ArgsOut
  | [], env, st => .ok [] env st
  | e :: rest, env, st =>
    match ev e env st with
    | .ok v env2 st2 =>
      match evalArgsWith ev rest env2 st2 with
      | .ok vs env3 st3 => .ok (v :: vs) env3 st3
      | .err m e3 s3 => .err m e3 s3
      | .out => .out
    | .err m e2 s2 => .err m e2 s2
    | .out => .out

/-- Evaluate a sequence for its last value (`result = VoidV(); for ...
result = eval; return result`): empty gives `Void`. -/
def evalSeqWith (ev : Expr → Env → Store → EvalOut) :
    List Expr → Env → Store → EvalOut
  | [], env, st => .ok .voidV env st
  | [e], env, st => ev e env st
  | e :: rest, env, st =>
    match ev e env st with
    | .ok _ env2 st2 => evalSeqWith ev rest env2 st2
    | .err m e2 s2 => .err m e2 s2
    | .out => .out

/-- Is an expression the literal `else` variable (the
`e_type == E_VAR && x == "else"` test of `Cond::eval`). -/
def isElseVar : Expr → Bool
  | .var x => x = "else"
  | _ => false

/-- The clause loop of `Cond::eval` (`evaluation.cpp` lines 1024-1063):
skip empty clauses; a literal-`else` head matches unconditionally (empty
body gives `Void`); otherwise evaluate the test, take the clause iff the
result is not the boolean false, returning the test's value for a
body-less clause; `Void` when no clause matches. -/
def evalCondWith (ev : Expr → Env → Store → EvalOut) :
    List (List Expr) → Env → Store → EvalOut
  | [], env, st => .ok .voidV env st
  | [] :: rest, env, st => evalCondWith ev rest env st
  | (test :: body) :: rest, env, st =>
    if isElseVar test then
      match body with
      | [] => .ok .voidV env st
      | _ => evalSeqWith ev body env st
    else
      match ev test env st with
      | .ok pv env2 st2 =>
        if isFalseV pv then evalCondWith ev rest env2 st2
        else
          match body with
          | [] => .ok pv env2 st2
          | _ => evalSeqWith ev body env2 st2
      | .err m e2 s2 => .err m e2 s2
      | .out => .out

/-- `AndVar::eval`: left to right, `false` at the first boolean false,
else the last value; `true` on no operands. -/
def evalAndWith (ev : Expr → Env → Store → EvalOut) :
    List Expr → Env → Store → EvalOut
  | [], env, st => .ok (.boolV true) env st
  | [e], env, st =>
    match ev e env st with
    | .ok v env2 st2 =>
      if isFalseV v then .ok (.boolV false) env2 st2
      else .ok v env2 st2
    | .err m e2 s2 => .err m e2 s2
    | .out => .out
  | e :: rest, env, st =>
    match ev e env st with
    | .ok v env2 st2 =>
      if isFalseV v then .ok (.boolV false) env2 st2
      else evalAndWith ev rest env2 st2
    | .err m e2 s2 => .err m e2 s2
    | .out => .out

/-- `OrVar::eval`: left to right, first value that is not the boolean
false, else `false`; `false` on no operands. -/
def evalOrWith (ev : Expr → Env → Store → EvalOut) :
    List Expr → Env → Store → EvalOut
  | [], env, st => .ok (.boolV false) env st
  | [e], env, st =>
    match ev e env st with
    | .ok v env2 st2 =>
      if isFalseV v then .ok (.boolV false) env2 st2
      else .ok v env2 st2
    | .err m e2 s2 => .err m e2 s2
    | .out => .out
  | e :: rest, env, st =>
    match ev e env st with
    | .ok v env2 st2 =>
      if isFalseV v then evalOrWith ev rest env2 st2
      else .ok v env2 st2
    | .err m e2 s2 => .err m e2 s2
    | .out => .out

/-- Leading internal `define`s of a `Begin` body (`es[i]->e_type ==
E_DEFINE` scan of `Begin::eval`). -/
def spanDefines : List Expr → List (String × Expr) × List Expr
  | .define x rhs :: rest =>
    let (ds, tail) := spanDefines rest
    ((x, rhs) :: ds, tail)
  | es => ([], es)

/-- Extend an environment with one `Value(nullptr)` placeholder slot per
name. -/
def extendAllNone : List (String × Expr) → Env → Store → Env × Store
  | [], env, st => (env, st)
  | (x, _) :: rest, env, st =>
    let (e2, s2) := extendAlloc x none env st
    extendAllNone rest e2 s2

/-- Initialisation loop of `Begin::eval`'s internal defines: evaluate each
right-hand side in the extended environment (threaded by reference) and
back-patch via `modify`. -/
def beginDefsWith (ev : Expr → Env → Store → EvalOut) :
    List (String × Expr) → Env → Store → ArgsOut
  | [], env, st => .ok [] env st
  | (x, rhs) :: rest, env, st =>
    match ev rhs env st with
    | .ok v env2 st2 => beginDefsWith ev rest env2 (modifyStore x v env2 st2)
    | .err m e2 s2 => .err m e2 s2
    | .out => .out

/-- `Begin::eval` of `evaluation.cpp`: establish slots for the leading
internal defines, initialise them, then evaluate the remaining body for
its last value; the defines live in a local environment, so the caller's
environment is returned unchanged on that path. -/
def evalBeginWith (ev : Expr → Env → Store → EvalOut) (es : List Expr)
    (env : Env) (st : Store) : EvalOut :=
  match es with
  | [] => .ok .voidV env st
  | _ =>
    let (defs, rest) := spanDefines es
    if defs.isEmpty then evalSeqWith ev es env st
    else
      let (newEnv, newSt) := extendAllNone defs env st
      match beginDefsWith ev defs newEnv newSt with
      | .ok _ env2 st2 =>
        match rest with
        | [] => .ok .voidV env st2
        | _ =>
          match evalSeqWith ev rest env2 st2 with
          | .ok v _ st3 => .ok v env st3
          | .err m _ s3 => .err m env s3
          | .out => .out
      | .err m _ s2 => .err m env s2
      | .out => .out

/-- Result of evaluating a binding list's right-hand sides. -/
inductive BindValsOut where
  | ok (pairs : List (String × Value)) (env : Env) (st : Store)
  | err (msg : String) (env : Env) (st : Store)
  | out
  deriving Repr

/-- Right-hand-side loop shared by `Let::eval` and `Letrec::eval`: collect
(name, value) pairs, threading the environment the C++ loop passes by
reference. -/
def bindRhsWith (ev : Expr → Env → Store → EvalOut) :
    List (String × Expr) → Env → Store → BindValsOut
  | [], env, st => .ok [] env st
  | (x, rhs) :: rest, env, st =>
    match ev rhs env st with
    | .ok v env2 st2 =>
      match bindRhsWith ev rest env2 st2 with
      | .ok pairs env3 st3 => .ok ((x, v) :: pairs) env3 st3
      | .err m e3 s3 => .err m e3 s3
      | .out => .out
    | .err m e2 s2 => .err m e2 s2
    | .out => .out

/-- Extend with one evaluated binding per pair, in order (so the last pair
becomes the innermost frame, as the C++ loop does). -/
def extendPairs : List (String × Value) → Env → Store → Env × Store
  | [], env, st => (env, st)
  | (x, v) :: rest, env, st =>
    let (e2, s2) := extendAlloc x (some v) env st
    extendPairs rest e2 s2

/-- `Apply::eval` after the rator and the operands are evaluated
(`evaluation.cpp` lines 1081-1111): a closure whose parameter list is
exactly `["args"]` skips the argument-count check; if its body is a
variadic operator node the operands go straight to that operator,
otherwise they are collected into a proper list bound to `"args"`; any
other closure requires exactly as many operands as parameters, bound
positionally.  The `ok`/`err` environment components here are the body's;
the caller restores its own threaded environment. -/
def applyClosWith (ev : Expr → Env → Store → EvalOut) (params : List String)
    (body : Expr) (cenv : Env) (args : List Value) (st : Store) : EvalOut :=
  if params = ["args"] then
    if isVariadicNode body then liftR (variadicRatorOf body args) cenv st
    else
      let argsList := args.foldr .pairV .nullV
      let (env1, st1) := extendAlloc "args" (some argsList) cenv st
      ev body env1 st1
  else
    if args.length = params.length then
      let (env1, st1) := extendPairs (params.zip args) cenv st
      ev body env1 st1
    else .err "Wrong number of arguments" cenv st

/-- `Binary::eval`: evaluate both operands (left to right; the C++ call
`evalRator(rand1->eval(e), rand2->eval(e))` leaves the order to the
compiler — no claim depends on it), then apply the operator. -/
def evalBinaryWith (ev : Expr → Env → Store → EvalOut)
    (rator : Value → Value → Except String Value) (r1 r2 : Expr)
    (env : Env) (st : Store) : EvalOut :=
  match ev r1 env st with
  | .ok v1 env2 st2 =>
    match ev r2 env2 st2 with
    | .ok v2 env3 st3 => liftR (rator v1 v2) env3 st3
    | .err m e3 s3 => .err m e3 s3
    | .out => .out
  | .err m e2 s2 => .err m e2 s2
  | .out => .out

/-- `Unary::eval`. -/
def evalUnaryWith (ev : Expr → Env → Store → EvalOut)
    (rator : Value → Except String Value) (r : Expr)
    (env : Env) (st : Store) : EvalOut :=
  match ev r env st with
  | .ok v env2 st2 => liftR (rator v) env2 st2
  | .err m e2 s2 => .err m e2 s2
  | .out => .out

/-- `Variadic::eval`: evaluate all operands, then apply the operator. -/
def evalVariadicWith (ev : Expr → Env → Store → EvalOut)
    (rator : List Value → Except String Value) (rs : List Expr)
    (env : Env) (st : Store) : EvalOut :=
  match evalArgsWith ev rs env st with
  | .ok vs env2 st2 => liftR (rator vs) env2 st2
  | .err m e2 s2 => .err m e2 s2
  | .out => .out

/-- `Expr::eval` (`evaluation.cpp`), fuelled.  Each case transcribes the
matching C++ `eval` override; the loop bodies live in the `...With`
helpers above, instantiated with the sub-evaluator at one unit less
fuel. -/
def eval (fuel : Nat) (e : Expr) (env : Env) (st : Store) : EvalOut :=
  match fuel with
  | 0 => .out
  | fuel + 1 =>
    match e with
    | .fixnum n => .ok (.intV n) env st
    | .rationalNum a b => liftR (rationalV a b) env st
    | .strE s => .ok (.strV s) env st
    | .trueE => .ok (.boolV true) env st
    | .falseE => .ok (.boolV false) env st
    | .makeVoid => .ok .voidV env st
    | .exitE => .ok .terminateV env st
    | .var x =>
      match varNameCheck x with
      | some m => .err m env st
      | none =>
        match findEnv x env st with
        | some v => .ok v env st
        | none =>
          match primLookup x with
          | some tag =>
            match primWrapperExpr tag with
            | some pe => .ok (.procV (wrapperParams pe) pe env) env st
            | none => .err "unbound variable" env st
          | none => .err "unbound variable" env st
    | .quote s => liftR (quoteValF fuel s) env st
    | .ifE c th el =>
      match eval fuel c env st with
      | .ok v env2 st2 =>
        if isFalseV v then eval fuel el env2 st2
        else eval fuel th env2 st2
      | .err m e2 s2 => .err m e2 s2
      | .out => .out
    | .cond clauses => evalCondWith (eval fuel) clauses env st
    | .begin es => evalBeginWith (eval fuel) es env st
    | .andVar rands => evalAndWith (eval fuel) rands env st
    | .orVar rands => evalOrWith (eval fuel) rands env st
    | .lambda xs body => .ok (.procV xs body env) env st
    | .apply rator rands =>
      match eval fuel rator env st with
      | .ok f env2 st2 =>
        match f with
        | .procV params body cenv =>
          match evalArgsWith (eval fuel) rands env2 st2 with
          | .ok args env3 st3 =>
            match applyClosWith (eval fuel) params body cenv args st3 with
            | .ok v _ st4 => .ok v env3 st4
            | .err m _ s4 => .err m env3 s4
            | .out => .out
          | .err m e3 s3 => .err m e3 s3
          | .out => .out
        | _ => .err "Attempt to apply a non-procedure" env2 st2
      | .err m e2 s2 => .err m e2 s2
      | .out => .out
    | .define x rhs =>
      if (primLookup x).isSome ∨ (reservedLookup x).isSome then
        .err ("Cannot redefine primitive: " ++ x) env st
      else
        let (env1, st1) := extendAlloc x none env st
        match eval fuel rhs env1 st1 with
        | .ok v env2 st2 => .ok .voidV env2 (modifyStore x v env2 st2)
        | .err m e2 s2 => .err m e2 s2
        | .out => .out
    | .setE x rhs =>
      match findEnv x env st with
      | none => .err ("Undefined variable in set!: " ++ x) env st
      | some _ =>
        match eval fuel rhs env st with
        | .ok v env2 st2 => .ok .voidV env2 (modifyStore x v env2 st2)
        | .err m e2 s2 => .err m e2 s2
        | .out => .out
    | .letE binds body =>
      match bindRhsWith (eval fuel) binds env st with
      | .ok pairs env2 st2 =>
        let (curEnv, st3) := extendPairs pairs env st2
        match eval fuel body curEnv st3 with
        | .ok v _ st4 => .ok v env2 st4
        | .err m _ s4 => .err m env2 s4
        | .out => .out
      | .err m e2 s2 => .err m e2 s2
      | .out => .out
    | .letrec binds body =>
      let (env1, st1) := extendAllNone binds env st
      match bindRhsWith (eval fuel) binds env1 st1 with
      | .ok pairs env2 st2 =>
        let st3 := pairs.foldl (fun acc p => modifyStore p.1 p.2 env2 acc) st2
        match eval fuel body env2 st3 with
        | .ok v _ st4 => .ok v env st4
        | .err m _ s4 => .err m env s4
        | .out => .out
      | .err m _ s2 => .err m env s2
      | .out => .out
    | .plus r1 r2 => evalBinaryWith (eval fuel) plusRator r1 r2 env st
    | .minus r1 r2 => evalBinaryWith (eval fuel) minusRator r1 r2 env st
    | .mult r1 r2 => evalBinaryWith (eval fuel) multRator r1 r2 env st
    | .divE r1 r2 => evalBinaryWith (eval fuel) divRator r1 r2 env st
    | .modulo r1 r2 => evalBinaryWith (eval fuel) moduloRator r1 r2 env st
    | .expt r1 r2 => evalBinaryWith (eval fuel) exptRator r1 r2 env st
    | .less r1 r2 => evalBinaryWith (eval fuel) lessRator r1 r2 env st
    | .lessEq r1 r2 => evalBinaryWith (eval fuel) lessEqRator r1 r2 env st
    | .equal r1 r2 => evalBinaryWith (eval fuel) equalRator r1 r2 env st
    | .greaterEq r1 r2 => evalBinaryWith (eval fuel) greaterEqRator r1 r2 env st
    | .greater r1 r2 => evalBinaryWith (eval fuel) greaterRator r1 r2 env st
    | .isEq r1 r2 => evalBinaryWith (eval fuel) isEqRator r1 r2 env st
    | .cons r1 r2 => evalBinaryWith (eval fuel) consRator r1 r2 env st
    | .setCar r1 r2 => evalBinaryWith (eval fuel) setCarRator r1 r2 env st
    | .setCdr r1 r2 => evalBinaryWith (eval fuel) setCdrRator r1 r2 env st
    | .plusVar rs => evalVariadicWith (eval fuel) plusVarRator rs env st
    | .minusVar rs => evalVariadicWith (eval fuel) minusVarRator rs env st
    | .multVar rs => evalVariadicWith (eval fuel) multVarRator rs env st
    | .divVar rs => evalVariadicWith (eval fuel) divVarRator rs env st
    | .lessVar rs => evalVariadicWith (eval fuel) lessVarRator rs env st
    | .lessEqVar rs => evalVariadicWith (eval fuel) lessEqVarRator rs env st
    | .equalVar rs => evalVariadicWith (eval fuel) equalVarRator rs env st
    | .greaterEqVar rs =>
      evalVariadicWith (eval fuel) greaterEqVarRator rs env st
    | .greaterVar rs => evalVariadicWith (eval fuel) greaterVarRator rs env st
    | .listFunc rs => evalVariadicWith (eval fuel) listFuncRator rs env st
    | .car r => evalUnaryWith (eval fuel) carRator r env st
    | .cdr r => evalUnaryWith (eval fuel) cdrRator r env st
    | .notE r => evalUnaryWith (eval fuel) notRator r env st
    | .isBoolean r => evalUnaryWith (eval fuel) isBooleanRator r env st
    | .isFixnum r => evalUnaryWith (eval fuel) isFixnumRator r env st
    | .isNull r => evalUnaryWith (eval fuel) isNullRator r env st
    | .isPair r => evalUnaryWith (eval fuel) isPairRator r env st
    | .isProcedure r => evalUnaryWith (eval fuel) isProcedureRator r env st
    | .isSymbol r => evalUnaryWith (eval fuel) isSymbolRator r env st
    | .isString r => evalUnaryWith (eval fuel) isStringRator r env st
    | .isList r => evalUnaryWith (eval fuel) isListRator r env st
    | .display r => evalUnaryWith (eval fuel) displayRator r env st

/-- One REPL outcome: the value of a top-level form, or a caught
`RuntimeError` (printing policy is outside this model). -/
inductive TopOut where
  | val (v : Value)
  | errTop
  | outTop
  deriving Repr

/-- The read-eval loop of `main.cpp` on a finite list of syntax trees:
parse and evaluate each against the persistent global environment; a
`RuntimeError` is caught, leaving the global environment as the unwound
evaluation left it; a `Terminate` value stops the loop. -/
def replRun (fuel : Nat) : List Stx → Env → Store → List TopOut
  | [], _, _ => []
  | stx :: rest, env, st =>
    match parseF fuel stx env st with
    | .ok e =>
      match eval fuel e env st with
      | .ok v env2 st2 =>
        if v matches .terminateV then []
        else .val v :: replRun fuel rest env2 st2
      | .err _ env2 st2 => .errTop :: replRun fuel rest env2 st2
      | .out => [.outTop]
    | .err _ => .errTop :: replRun fuel rest env st
    | .out => [.outTop]

end SchemeSpec

namespace SchemeSpec.HeapModel

/-! ## The heap model of pair structures and `IsList::evalRator`

`set-car!`/`set-cdr!` mutate shared `Pair` cells, so the pair structures
reachable at run time are arbitrary finite graphs of cells, cyclic ones
included.  This section models exactly that: a heap of (car, cdr) cells
addressed by index, values that are either the empty list, a pair
reference, or any non-pair atom (integers, booleans, strings, symbols,
procedures, void — `list?` never distinguishes among these), and the
fast/slow pointer walk of `IsList::evalRator` (`evaluation.cpp` lines
771-797) transcribed over it.  `slow.get() == fast.get()` compares cell
object identity, which here is address equality; at every comparison the
slow pointer is a pair (it trails the fast pointer), so `ptrEq` needs no
case for two non-pair operands. -/

/-- A runtime value as `list?` sees it: `Null`, a pair cell reference, or
any non-pair atom. -/
inductive HVal where
  | hnull
  | hatom
  | hpair (a : Nat)
  deriving Repr, DecidableEq

/-- The heap: cell `a` holds `(car, cdr)` of the pair at address `a`. -/
abbrev Heap := List (HVal × HVal)

/-- Every address stored in a value points into the heap. -/
def WFVal (h : Heap) (v : HVal) : Prop :=
  ∀ a, v = HVal.hpair a → a < h.length

instance (h : Heap) (v : HVal) : Decidable (WFVal h v) :=
  match v with
  | .hpair b =>
    decidable_of_iff (b < h.length)
      ⟨fun hb a ha => by injection ha with hba; omega,
       fun H => H b rfl⟩
  | .hnull => isTrue (by intro a ha; cases ha)
  | .hatom => isTrue (by intro a ha; cases ha)

/-- Every address stored in any cell points into the heap. -/
def WFHeap (h : Heap) : Prop := ∀ c ∈ h, WFVal h c.1 ∧ WFVal h c.2

instance (h : Heap) : Decidable (WFHeap h) := List.decidableBAll _ h

/-- `fast = dynamic_cast<Pair*>(fast.get())->cdr`: the cdr field of the
referenced cell; non-pair values are returned unchanged (the evaluator
only ever takes the cdr of a pair, and fixing non-pairs makes the walk
total, which the proper-list predicate below relies on). -/
def heapCdr (h : Heap) : HVal → HVal
  | .hpair a => (h.getD a (.hatom, .hatom)).2
  | v => v

/-- `fast->v_type == V_PAIR`. -/
def isPairH : HVal → Bool
  | .hpair _ => true
  | _ => false

/-- `fast->v_type == V_NULL`. -/
def isNullH : HVal → Bool
  | .hnull => true
  | _ => false

/-- `slow.get() == fast.get()`: object identity, i.e. cell address
equality.  (The loop below compares it only when `slow` is a pair, so no
case for two equal non-pair objects is needed.) -/
def ptrEq : HVal → HVal → Bool
  | .hpair a, .hpair b => a = b
  | _, _ => false

/-- The `while (true)` walk of `IsList::evalRator`: advance `fast` twice
(breaking out with `fast->v_type == V_NULL` as soon as it leaves the
pairs), advance `slow` once, and answer `false` when the two pointers
meet.  Fuelled; `isListFuelFor` below is proven sufficient. -/
def isListLoop (h : Heap) (fuel : Nat) (slow fast : HVal) : Option Bool :=
  match fuel with
  | 0 => none
  | fuel + 1 =>
    if isPairH fast then
      let fast1 := heapCdr h fast
      if isPairH fast1 then
        let fast2 := heapCdr h fast1
        let slow1 := heapCdr h slow
        if ptrEq slow1 fast2 then some false
        else isListLoop h fuel slow1 fast2
      else some (isNullH fast1)
    else some (isNullH fast)

/-- Fuel sufficient for the walk on heap `h` (shown below): the walk
either leaves the pairs within `h.length` steps or meets itself within
`h.length * (h.length + 1)` iterations. -/
def isListFuelFor (h : Heap) : Nat := (h.length + 1) * (h.length + 1)

/-- `IsList::evalRator`: `Null` is a list, non-pairs are not, and a pair
starts the fast/slow walk with both pointers on it. -/
def isListH (h : Heap) (v : HVal) : Option Bool :=
  match v with
  | .hnull => some true
  | .hpair _ => isListLoop h (isListFuelFor h) v v
  | .hatom => some false

/-- `n` steps of the cdr walk. -/
def walkN (h : Heap) : Nat → HVal → HVal
  | 0, v => v
  | n + 1, v => walkN h n (heapCdr h v)

/-- A proper list: some number of cdr steps reaches `Null`. -/
def ProperList (h : Heap) (v : HVal) : Prop := ∃ n, walkN h n v = .hnull

theorem walkN_add (h : Heap) (m n : Nat) (v : HVal) :
    walkN h (m + n) v = walkN h m (walkN h n v) := by
  induction n generalizing v with
  | zero => rfl
  | succ n ih =>
    rw [Nat.add_succ]
    show walkN h (m + n) (heapCdr h v) = _
    rw [ih]
    rfl

theorem walkN_succ_out (h : Heap) (n : Nat) (v : HVal) :
    walkN h (n + 1) v = heapCdr h (walkN h n v) := by
  have h1 := walkN_add h 1 n v
  rw [Nat.add_comm 1 n] at h1
  exact h1

theorem heapCdr_nonpair {h : Heap} {v : HVal} (hv : isPairH v = false) :
    heapCdr h v = v := by
  cases v with
  | hpair a => simp [isPairH] at hv
  | hnull => rfl
  | hatom => rfl

theorem walkN_stable {h : Heap} {v : HVal} {k : Nat}
    (hk : isPairH (walkN h k v) = false) :
    ∀ n, k ≤ n → walkN h n v = walkN h k v := by
  have aux : ∀ m, walkN h m (walkN h k v) = walkN h k v := by
    intro m
    induction m with
    | zero => rfl
    | succ m ih =>
      show walkN h m (heapCdr h (walkN h k v)) = _
      rw [heapCdr_nonpair hk]
      exact ih
  intro n hn
  obtain ⟨m, rfl⟩ : ∃ m, n = m + k := ⟨n - k, by omega⟩
  rw [walkN_add]
  exact aux m

theorem wfVal_heapCdr {h : Heap} (hwf : WFHeap h) {v : HVal}
    (hv : WFVal h v) : WFVal h (heapCdr h v) := by
  cases v with
  | hpair a =>
    have ha : a < h.length := hv a rfl
    show WFVal h (h.getD a (.hatom, .hatom)).2
    rw [List.getD_eq_getElem h _ ha]
    exact (hwf _ (List.getElem_mem ha)).2
  | hnull => exact hv
  | hatom => exact hv

theorem wfVal_walkN {h : Heap} (hwf : WFHeap h) {v : HVal}
    (hv : WFVal h v) : ∀ n, WFVal h (walkN h n v) := by
  intro n
  induction n with
  | zero => exact hv
  | succ n ih =>
    rw [walkN_succ_out]
    exact wfVal_heapCdr hwf ih

theorem walk_coincide {h : Heap} {v : HVal} {p q : Nat}
    (hpq : walkN h p v = walkN h q v) (m : Nat) :
    walkN h (m + p) v = walkN h (m + q) v := by
  rw [walkN_add, walkN_add, hpq]

theorem walk_periodic_bounded {h : Heap} {v : HVal} {p q : Nat} (hlt : p < q)
    (hpq : walkN h p v = walkN h q v) :
    ∀ n, p ≤ n → ∃ j, p ≤ j ∧ j < q ∧ walkN h n v = walkN h j v := by
  intro n
  induction n using Nat.strong_induction_on with
  | _ n ih =>
    intro hn
    by_cases hq : n < q
    · exact ⟨n, hn, hq, rfl⟩
    · have hco := walk_coincide hpq (n - q)
      have h1 : n - q + q = n := by omega
      rw [h1] at hco
      obtain ⟨j, hj1, hj2, hj3⟩ := ih (n - q + p) (by omega) (by omega)
      exact ⟨j, hj1, hj2, by rw [← hco]; exact hj3⟩

/-- The pair address (junk on non-pairs; used only on pairs). -/
def addrOf : HVal → Nat
  | .hpair a => a
  | _ => 0

theorem walk_pair_eq_of_addr_eq {h : Heap} {v : HVal} {i j : Nat}
    (hi : isPairH (walkN h i v) = true) (hj : isPairH (walkN h j v) = true)
    (hij : addrOf (walkN h i v) = addrOf (walkN h j v)) :
    walkN h i v = walkN h j v := by
  cases hvi : walkN h i v <;> cases hvj : walkN h j v <;>
    rw [hvi] at hi hij <;> rw [hvj] at hj hij <;>
    simp_all [isPairH, addrOf]

/-- Pigeonhole: when the walk stays in the pairs for `h.length + 1` steps
it revisits a cell. -/
theorem walk_repeat {h : Heap} {v : HVal} (hwf : WFHeap h) (hv : WFVal h v)
    (hall : ∀ i, i ≤ h.length → isPairH (walkN h i v) = true) :
    ∃ p q, p < q ∧ q ≤ h.length ∧ walkN h p v = walkN h q v := by
  have haddr : ∀ i, i ≤ h.length → addrOf (walkN h i v) < h.length := by
    intro i hi
    have hp := hall i hi
    have hw := wfVal_walkN hwf hv i
    cases hvi : walkN h i v with
    | hpair a =>
      rw [hvi] at hw
      simpa [addrOf] using hw a rfl
    | hnull => rw [hvi] at hp; simp [isPairH] at hp
    | hatom => rw [hvi] at hp; simp [isPairH] at hp
  have hcard : (Finset.range h.length).card <
      (Finset.range (h.length + 1)).card := by
    simp
  have hmaps : ∀ i ∈ Finset.range (h.length + 1),
      addrOf (walkN h i v) ∈ Finset.range h.length := by
    intro i hi
    rw [Finset.mem_range] at hi ⊢
    exact haddr i (by omega)
  obtain ⟨i, hi, j, hj, hne, heq⟩ :=
    Finset.exists_ne_map_eq_of_card_lt_of_maps_to hcard hmaps
  rw [Finset.mem_range] at hi hj
  rcases Nat.lt_or_ge i j with hij | hij
  · exact ⟨i, j, hij, by omega,
      walk_pair_eq_of_addr_eq (hall i (by omega)) (hall j (by omega)) heq⟩
  · have hij' : j < i := by omega
    exact ⟨j, i, hij', by omega,
      walk_pair_eq_of_addr_eq (hall j (by omega)) (hall i (by omega)) heq.symm⟩

theorem ptrEq_eq_false {x y : HVal} (hx : isPairH x = true) (hne : x ≠ y) :
    ptrEq x y = false := by
  cases x <;> cases y <;> simp_all [ptrEq, isPairH]

theorem ptrEq_eq_true {x y : HVal} (hx : isPairH x = true) (heq : x = y) :
    ptrEq x y = true := by
  subst heq
  cases x <;> simp_all [ptrEq, isPairH]

/-- Exit case of the walk: when the cdr chain leaves the pairs after
exactly `k` steps, the loop stops within `k ≤ 2i + 2·fuel` iterations and
answers whether the first non-pair is `Null`.  The no-meet argument: were
`slow` and `fast` ever equal, the walk would be periodic among pairs
forever, contradicting the exit. -/
theorem exit_loop {h : Heap} {v : HVal} {k : Nat}
    (hkmin : ∀ n, n < k → isPairH (walkN h n v) = true)
    (hk : isPairH (walkN h k v) = false) :
    ∀ f i, k ≤ 2 * i + 2 * f →
      isListLoop h (f + 1) (walkN h i v) (walkN h (2 * i) v) =
        some (isNullH (walkN h k v)) := by
  intro f
  induction f with
  | zero =>
    intro i hle
    have hst : walkN h (2 * i) v = walkN h k v :=
      walkN_stable hk (2 * i) (by omega)
    rw [isListLoop, hst, if_neg (by rw [hk]; exact Bool.false_ne_true)]
  | succ f ih =>
    intro i hle
    by_cases hki : k ≤ 2 * i
    · have hst : walkN h (2 * i) v = walkN h k v := walkN_stable hk (2 * i) hki
      rw [isListLoop, hst, if_neg (by rw [hk]; exact Bool.false_ne_true)]
    · have hp0 : isPairH (walkN h (2 * i) v) = true := hkmin _ (by omega)
      rw [isListLoop, if_pos hp0]
      have hc1 : heapCdr h (walkN h (2 * i) v) = walkN h (2 * i + 1) v :=
        (walkN_succ_out h (2 * i) v).symm
      rw [hc1]
      by_cases hk1 : 2 * i + 1 = k
      · rw [hk1, if_neg (by rw [hk]; exact Bool.false_ne_true)]
      · have hp1 : isPairH (walkN h (2 * i + 1) v) = true := hkmin _ (by omega)
        rw [if_pos hp1]
        have hc2 : heapCdr h (walkN h (2 * i + 1) v) = walkN h (2 * i + 2) v := by
          have := (walkN_succ_out h (2 * i + 1) v).symm
          rw [this]
        have hcs : heapCdr h (walkN h i v) = walkN h (i + 1) v :=
          (walkN_succ_out h i v).symm

        rw [hc2, hcs]
        dsimp only
        have hslowpair : isPairH (walkN h (i + 1) v) = true :=
          hkmin _ (by omega)
        have hne : walkN h (i + 1) v ≠ walkN h (2 * i + 2) v := by
          intro heq
          obtain ⟨j, hj1, hj2, hj3⟩ :=
            walk_periodic_bounded (show i + 1 < 2 * i + 2 by omega) heq k
              (by omega)
          have hjp : isPairH (walkN h k v) = true := by
            rw [hj3]; exact hkmin j (by omega)
          rw [hjp] at hk
          cases hk
        rw [ptrEq_eq_false hslowpair hne, if_neg Bool.false_ne_true]
        have h2 : 2 * i + 2 = 2 * (i + 1) := by omega
        rw [h2]
        exact ih (i + 1) (by omega)

/-- Cycle case of the walk: when the cdr chain never leaves the pairs, a
meeting point `walk i = walk 2i` (`1 ≤ i`) exists and the loop answers
`false` at the first one. -/
theorem cycle_loop {h : Heap} {v : HVal}
    (hall : ∀ n, isPairH (walkN h n v) = true)
    (hmeet : ∃ i, 1 ≤ i ∧ walkN h i v = walkN h (2 * i) v) :
    ∀ f j, j < Nat.find hmeet → Nat.find hmeet ≤ j + f →
      isListLoop h f (walkN h j v) (walkN h (2 * j) v) = some false := by
  intro f
  induction f with
  | zero => intro j hj1 hj2; omega
  | succ f ih =>
    intro j hj1 hj2
    rw [isListLoop, if_pos (hall (2 * j))]
    have hc1 : heapCdr h (walkN h (2 * j) v) = walkN h (2 * j + 1) v :=
      (walkN_succ_out h (2 * j) v).symm
    rw [hc1, if_pos (hall (2 * j + 1))]
    have hc2 : heapCdr h (walkN h (2 * j + 1) v) = walkN h (2 * j + 2) v :=
      (walkN_succ_out h (2 * j + 1) v).symm
    have hcs : heapCdr h (walkN h j v) = walkN h (j + 1) v :=
      (walkN_succ_out h j v).symm
    rw [hc2, hcs]
    dsimp only
    have h2 : 2 * j + 2 = 2 * (j + 1) := by omega
    by_cases heq : walkN h (j + 1) v = walkN h (2 * (j + 1)) v
    · rw [h2, ptrEq_eq_true (hall (j + 1)) heq]
      simp
    · have hne : walkN h (j + 1) v ≠ walkN h (2 * j + 2) v := by
        rw [h2]; exact heq
      rw [ptrEq_eq_false (hall (j + 1)) hne, if_neg Bool.false_ne_true, h2]
      have hjlt : j + 1 < Nat.find hmeet := by
        rcases Nat.lt_or_ge (j + 1) (Nat.find hmeet) with hlt | hge
        · exact hlt
        · exfalso
          have : j + 1 = Nat.find hmeet := by omega
          have hspec := Nat.find_spec hmeet
          rw [← this] at hspec
          exact heq hspec.2
      exact ih (j + 1) hjlt (by omega)

/-- In the exit case the walk cannot stay in the pairs longer than the
heap has cells: the pair positions before the exit are pairwise distinct
cells. -/
theorem exit_bound {h : Heap} {v : HVal} (hwf : WFHeap h) (hv : WFVal h v)
    {k : Nat} (hkmin : ∀ n, n < k → isPairH (walkN h n v) = true)
    (hk : isPairH (walkN h k v) = false) : k ≤ h.length := by
  by_contra hgt
  have hall : ∀ i, i ≤ h.length → isPairH (walkN h i v) = true := by
    intro i hi
    exact hkmin i (by omega)
  obtain ⟨p, q, hpq, hqN, heq⟩ := walk_repeat hwf hv hall
  obtain ⟨j, hj1, hj2, hj3⟩ := walk_periodic_bounded hpq heq k (by omega)
  have : isPairH (walkN h k v) = true := by
    rw [hj3]; exact hkmin j (by omega)
  rw [this] at hk
  cases hk

/-- In the cycle case a meeting point `walk i = walk 2i` with `1 ≤ i`
exists, bounded by `h.length * (h.length + 1)`. -/
theorem cycle_meet {h : Heap} {v : HVal} (hwf : WFHeap h) (hv : WFVal h v)
    (hall : ∀ n, isPairH (walkN h n v) = true) :
    ∃ i, (1 ≤ i ∧ walkN h i v = walkN h (2 * i) v) ∧
      i ≤ h.length * (h.length + 1) := by
  obtain ⟨p, q, hpq, hqN, heq⟩ :=
    walk_repeat hwf hv (fun i _ => hall i)
  obtain ⟨c, hc1, rfl⟩ : ∃ c, 1 ≤ c ∧ q = p + c := ⟨q - p, by omega, by omega⟩
  have hper : ∀ n, p ≤ n → walkN h (n + c) v = walkN h n v := by
    intro n hn
    have hco := walk_coincide heq (n - p)
    have h1 : n - p + p = n := by omega
    have h2 : n - p + (p + c) = n + c := by omega
    rw [h1, h2] at hco
    exact hco.symm
  have hmult : ∀ j n, p ≤ n → walkN h (n + j * c) v = walkN h n v := by
    intro j
    induction j with
    | zero => intro n _; simp
    | succ j ih =>
      intro n hn
      have h1 : n + (j + 1) * c = (n + j * c) + c := by ring
      rw [h1, hper _ (by omega), ih n hn]
  have hcN : c ≤ h.length := by omega
  have hpN : p + 1 ≤ h.length := by omega
  refine ⟨c * (p + 1), ⟨Nat.mul_pos (by omega) (by omega), ?_⟩, ?_⟩
  · have h2 : 2 * (c * (p + 1)) = (c * (p + 1)) + (p + 1) * c := by ring
    rw [h2, hmult (p + 1) (c * (p + 1)) (by nlinarith)]
  · calc c * (p + 1) ≤ h.length * h.length := Nat.mul_le_mul hcN hpN
      _ ≤ h.length * (h.length + 1) := Nat.mul_le_mul_left _ (by omega)

/-- Claim C4: on every well-formed heap — cyclic structures made with
`set-car!`/`set-cdr!` included — the fast/slow walk of `IsList::evalRator`
terminates within the stated fuel, and its answer is `true` exactly on
proper lists (cdr chains reaching `Null`); cyclic or otherwise improper
structures get `false`. -/
theorem isList_terminates_iff_proper (h : Heap) (v : HVal)
    (hwf : WFHeap h) (hv : WFVal h v) :
    ∃ b, isListH h v = some b ∧ (b = true ↔ ProperList h v) := by
  cases hvc : v with
  | hnull =>
    exact ⟨true, rfl, by simp [ProperList]; exact ⟨0, rfl⟩⟩
  | hatom =>
    refine ⟨false, rfl, ?_⟩
    constructor
    · intro hf; cases hf
    · rintro ⟨n, hn⟩
      have : walkN h n HVal.hatom = HVal.hatom :=
        walkN_stable (k := 0) (by rfl) n (by omega)
      rw [this] at hn
      cases hn
  | hpair a =>
    subst hvc
    have hFpos : h.length + 1 ≤ isListFuelFor h := by
      unfold isListFuelFor
      exact Nat.le_mul_of_pos_left _ (by omega)
    have hF : isListFuelFor h = ((isListFuelFor h) - 1) + 1 := by omega
    by_cases hex : ∃ n, isPairH (walkN h n (HVal.hpair a)) = false
    · -- exit case
      have hkmin : ∀ n, n < Nat.find hex →
          isPairH (walkN h n (HVal.hpair a)) = true := by
        intro n hn
        have := Nat.find_min hex hn
        cases hs : isPairH (walkN h n (HVal.hpair a)) with
        | true => rfl
        | false => exact absurd hs this
      have hkspec : isPairH (walkN h (Nat.find hex) (HVal.hpair a)) = false :=
        Nat.find_spec hex
      have hkN : Nat.find hex ≤ h.length := exit_bound hwf hv hkmin hkspec
      have hfuel : Nat.find hex ≤ 2 * 0 + 2 * ((isListFuelFor h) - 1) := by
        omega
      have hloop := exit_loop hkmin hkspec ((isListFuelFor h) - 1) 0 hfuel
      refine ⟨isNullH (walkN h (Nat.find hex) (HVal.hpair a)), ?_, ?_⟩
      · show isListLoop h (isListFuelFor h) (HVal.hpair a) (HVal.hpair a) = _
        rw [hF]
        exact hloop
      · constructor
        · intro hnul
          refine ⟨Nat.find hex, ?_⟩
          cases hw : walkN h (Nat.find hex) (HVal.hpair a) with
          | hnull => rfl
          | hatom => rw [hw] at hnul; simp [isNullH] at hnul
          | hpair b => rw [hw] at hnul; simp [isNullH] at hnul
        · rintro ⟨n, hn⟩
          have hnk : Nat.find hex ≤ n := by
            by_contra hlt
            have := hkmin n (by omega)
            rw [hn] at this
            cases this
          have hst := walkN_stable hkspec n hnk
          rw [hst] at hn
          rw [hn]
          rfl
    · -- cycle case
      have hall : ∀ n, isPairH (walkN h n (HVal.hpair a)) = true := by
        intro n
        cases hs : isPairH (walkN h n (HVal.hpair a)) with
        | true => rfl
        | false => exact absurd ⟨n, hs⟩ hex
      obtain ⟨i, hi, hibound⟩ := cycle_meet hwf hv hall
      have hmeet : ∃ i, 1 ≤ i ∧
          walkN h i (HVal.hpair a) = walkN h (2 * i) (HVal.hpair a) := ⟨i, hi⟩
      have hfindpos : 1 ≤ Nat.find hmeet := (Nat.find_spec hmeet).1
      have hfindle : Nat.find hmeet ≤ i := Nat.find_min' hmeet hi
      have hNF : h.length * (h.length + 1) ≤ isListFuelFor h := by
        unfold isListFuelFor
        exact Nat.mul_le_mul (by omega) (by omega)
      have hloop := cycle_loop hall hmeet (isListFuelFor h) 0
        (by omega) (by omega)
      refine ⟨false, ?_, ?_⟩
      · show isListLoop h (isListFuelFor h) (HVal.hpair a) (HVal.hpair a) = _
        exact hloop
      · constructor
        · intro hf; cases hf
        · rintro ⟨n, hn⟩
          have := hall n
          rw [hn] at this
          cases this

/-- Witness for `isList_terminates_iff_proper` on the one-cell cyclic heap
(a pair whose cdr is itself, as `(define p (cons 1 2)) (set-cdr! p p)`
builds): the walk terminates and answers. -/
theorem isList_terminates_iff_proper_witness :
    ∃ b, isListH [(HVal.hatom, HVal.hpair 0)] (HVal.hpair 0) = some b ∧
      (b = true ↔ ProperList [(HVal.hatom, HVal.hpair 0)] (HVal.hpair 0)) :=
  isList_terminates_iff_proper _ _ (by decide) (by decide)

end SchemeSpec.HeapModel

namespace SchemeSpec

/-! ## Claim theorems against the interpreter model -/

/-- Claim C3: the overflow guards of `Expt::evalRator` under `src/` compare
the already-wrapped `int` accumulator against `INT_MAX`/`INT_MIN`, so they
can never fire: `(expt 2 31)` — whose mathematical value `2^31` does not
fit the result type — returns the wrapped value `-2147483648` instead of
raising the overflow error the claim (and the spec, and the alternate
revision of this function in `unnamed/part_000`, whose accumulator is a
`long long`) requires. -/
theorem expt_overflow_returns_wrapped_value :
    exptRator (.intV 2) (.intV 31) = .ok (.intV (-2147483648)) ∧
    exptRator (.intV 2) (.intV (-1)) =
      .error "Negative exponent not supported for integers" ∧
    exptRator (.intV 0) (.intV 0) = .error "0^0 is undefined" ∧
    exptRator (.strV "x") (.intV 2) = .error "Type error in exponentiation" :=
  ⟨rfl, rfl, rfl, rfl⟩

/-- `(define + (lambda (a b) (cons a b)))`. -/
def definePlusStx : Stx :=
  .list [.sym "define", .sym "+",
    .list [.sym "lambda", .list [.sym "a", .sym "b"],
      .list [.sym "cons", .sym "a", .sym "b"]]]

/-- `(+ 1 2)`. -/
def plusOneTwoStx : Stx := .list [.sym "+", .num 1, .num 2]

/-- `(let ((+ (lambda (a b) (cons a b)))) (+ 1 2))`. -/
def letShadowStx : Stx :=
  .list [.sym "let",
    .list [.list [.sym "+",
      .list [.sym "lambda", .list [.sym "a", .sym "b"],
        .list [.sym "cons", .sym "a", .sym "b"]]]],
    .list [.sym "+", .num 1, .num 2]]

/-- Claim C1, counterexample: the top-level form
`(define + (lambda (a b) (cons a b)))` does not establish a shadowing
binding — `Define::eval` rejects every primitive name with a
`RuntimeError` — and the following `(+ 1 2)` still evaluates to the
integer 3, not the pair `(1 . 2)` the claim requires. -/
theorem define_plus_rejected_counterexample :
    replRun 30 [definePlusStx, plusOneTwoStx] [] [] =
      [.errTop, .val (.intV 3)] ∧
    Value.intV 3 ≠ Value.pairV (.intV 1) (.intV 2) :=
  ⟨rfl, fun h => Value.noConfusion h⟩

/-- Claim C1, amended: occurrences of a name bound in the environment
evaluate to the binding, whatever primitive it shadows — so binding forms
such as `let` and `lambda` do shadow primitives, and
`(let ((+ (lambda (a b) (cons a b)))) (+ 1 2))` evaluates to the pair
`(1 . 2)` — but `define` of a primitive name raises a `RuntimeError`
leaving the environment unchanged, and a subsequent `(+ 1 2)` still
returns the integer 3. -/
theorem shadowing_binding_refers :
    (∀ (x : String) (v : Value) (env : Env) (st : Store) (fuel : Nat),
      varNameCheck x = none → findEnv x env st = some v →
      eval (fuel + 1) (.var x) env st = .ok v env st) ∧
    replRun 30 [letShadowStx] [] [] =
      [.val (.pairV (.intV 1) (.intV 2))] ∧
    replRun 30 [definePlusStx, plusOneTwoStx] [] [] =
      [.errTop, .val (.intV 3)] := by
  refine ⟨?_, rfl, rfl⟩
  intro x v env st fuel h1 h2
  show (match varNameCheck x with
        | some m => EvalOut.err m env st
        | none => match findEnv x env st with
          | some v => EvalOut.ok v env st
          | none => match primLookup x with
            | some tag => match primWrapperExpr tag with
              | some pe => EvalOut.ok (.procV (wrapperParams pe) pe env) env st
              | none => EvalOut.err "unbound variable" env st
            | none => EvalOut.err "unbound variable" env st) = EvalOut.ok v env st
  rw [h1, h2]

/-- Witness for `shadowing_binding_refers` at a binding of `+`. -/
theorem shadowing_binding_refers_witness :
    eval 1 (.var "+") [("+", 0)] [some (.intV 7)] =
      .ok (.intV 7) [("+", 0)] [some (.intV 7)] :=
  shadowing_binding_refers.1 "+" (.intV 7) [("+", 0)] [some (.intV 7)] 0
    rfl rfl

/-- Claim C2, counterexample: `Define::eval` also rejects *reserved-word*
names, not only primitive names: `(define if 3)` raises a `RuntimeError`
although `if` is not a primitive name, where the claim's "otherwise"
branch asserts the extend-evaluate-modify path would run. -/
theorem define_reserved_rejected_counterexample :
    eval 2 (.define "if" (.fixnum 3)) [] [] =
      .err "Cannot redefine primitive: if" [] [] ∧
    primLookup "if" = none :=
  ⟨rfl, rfl⟩

/-- Claim C2, amended: `Define::eval` raises a `RuntimeError` when the
name is a primitive *or reserved-word* name; otherwise it first extends
the environment with a fresh null-slot frame for the name, then evaluates
the right-hand side in that extended environment (so the right-hand side
sees the name being defined), then patches the slot with the result via
`modify`, returning `Void`. -/
theorem define_eval_semantics (x : String) (rhs : Expr) (env : Env)
    (st : Store) (fuel : Nat) :
    ((primLookup x).isSome ∨ (reservedLookup x).isSome →
      eval (fuel + 1) (.define x rhs) env st =
        .err ("Cannot redefine primitive: " ++ x) env st) ∧
    ((primLookup x) = none ∧ (reservedLookup x) = none →
      eval (fuel + 1) (.define x rhs) env st =
        (let es := extendAlloc x none env st
         match eval fuel rhs es.1 es.2 with
         | .ok v env2 st2 => .ok .voidV env2 (modifyStore x v env2 st2)
         | .err m e2 s2 => .err m e2 s2
         | .out => .out)) := by
  constructor
  · intro h
    show (if (primLookup x).isSome ∨ (reservedLookup x).isSome then _ else _) = _
    rw [if_pos h]
  · rintro ⟨h1, h2⟩
    show (if (primLookup x).isSome ∨ (reservedLookup x).isSome then _ else _) = _
    rw [if_neg (by simp [h1, h2])]
    rfl

/-- Witness for `define_eval_semantics`: `(define x 7)` in the empty
environment allocates a slot for `x`, evaluates the right-hand side, and
patches the slot. -/
theorem define_eval_semantics_witness :
    eval 2 (.define "x" (.fixnum 7)) [] [] =
      .ok .voidV [("x", 0)] [some (.intV 7)] := by
  have h := (define_eval_semantics "x" (.fixnum 7) [] [] 1).2 ⟨rfl, rfl⟩
  rw [h]
  rfl

theorem isFalseV_eq_false {v : Value} (hv : v ≠ .boolV false) :
    isFalseV v = false := by
  cases v with
  | boolV b =>
    cases b with
    | false => exact absurd rfl hv
    | true => rfl
  | _ => rfl

/-- Claim C7: `Cond::eval` iterates the clauses in order.  An empty clause
list — and a run of clauses whose tests evaluate to the boolean false —
gives `Void`; a literal-`else` head matches unconditionally without being
evaluated, even when a variable `else` is bound; the first truthy test
selects its clause, whose body is evaluated in order for its last value,
the test's own value standing in when the body is empty; and the whole
`Cond` expression evaluates through exactly this clause walk. -/
theorem cond_eval_clauses :
    (∀ (ev : Expr → Env → Store → EvalOut) (env : Env) (st : Store),
      evalCondWith ev [] env st = .ok .voidV env st) ∧
    (∀ ev env st (body : List Expr) rest,
      evalCondWith ev ((Expr.var "else" :: body) :: rest) env st =
        (match body with
         | [] => .ok .voidV env st
         | _ => evalSeqWith ev body env st)) ∧
    (∀ ev env st test body rest v env2 st2, isElseVar test = false →
      ev test env st = .ok v env2 st2 → v ≠ .boolV false →
      evalCondWith ev ((test :: body) :: rest) env st =
        (match body with
         | [] => .ok v env2 st2
         | _ => evalSeqWith ev body env2 st2)) ∧
    (∀ ev env st test body rest env2 st2, isElseVar test = false →
      ev test env st = .ok (.boolV false) env2 st2 →
      evalCondWith ev ((test :: body) :: rest) env st =
        evalCondWith ev rest env2 st2) ∧
    (∀ clauses env st fuel,
      eval (fuel + 1) (.cond clauses) env st =
        evalCondWith (eval fuel) clauses env st) := by
  refine ⟨fun ev env st => rfl, ?_, ?_, ?_, fun clauses env st fuel => rfl⟩
  · intro ev env st body rest
    show (if isElseVar (.var "else") then _ else _) = _
    rw [if_pos (by rfl)]
  · intro ev env st test body rest v env2 st2 hne hev hv
    show (if isElseVar test then _ else _) = _
    rw [hne]
    show (match ev test env st with
          | EvalOut.ok pv env2 st2 =>
            if isFalseV pv then evalCondWith ev rest env2 st2
            else match body with
              | [] => EvalOut.ok pv env2 st2
              | _ => evalSeqWith ev body env2 st2
          | EvalOut.err m e2 s2 => EvalOut.err m e2 s2
          | EvalOut.out => EvalOut.out) = _
    rw [hev]
    dsimp only
    rw [isFalseV_eq_false hv, if_neg (by simp)]
    cases body <;> rfl
  · intro ev env st test body rest env2 st2 hne hev
    show (if isElseVar test then _ else _) = _
    rw [hne]
    show (match ev test env st with
          | EvalOut.ok pv env2 st2 =>
            if isFalseV pv then evalCondWith ev rest env2 st2
            else match body with
              | [] => EvalOut.ok pv env2 st2
              | _ => evalSeqWith ev body env2 st2
          | EvalOut.err m e2 s2 => EvalOut.err m e2 s2
          | EvalOut.out => EvalOut.out) = _
    rw [hev]
    rfl

/-- Witness for `cond_eval_clauses`:
`(cond (#f 1) (#t 2 3) (else 4))` takes the second clause and returns 3. -/
theorem cond_eval_clauses_witness :
    evalCondWith (eval 3)
      [[Expr.trueE, Expr.fixnum 2, Expr.fixnum 3], [Expr.var "else", Expr.fixnum 4]]
      [] [] =
      evalSeqWith (eval 3) [Expr.fixnum 2, Expr.fixnum 3] [] [] := by
  have h := cond_eval_clauses.2.2.1 (eval 3) [] [] Expr.trueE
    [Expr.fixnum 2, Expr.fixnum 3] [[Expr.var "else", Expr.fixnum 4]]
    (.boolV true) [] [] rfl rfl
    (fun h => by injection h with h2; exact Bool.noConfusion h2)
  rw [h]

/-- Claim C8: `Set::eval` fails with a `RuntimeError` whenever the name is
not currently bound (a `letrec`-style null slot counts as unbound, since
the C++ test is `find(...).get() == nullptr`); when bound, it evaluates
the right-hand side and overwrites the innermost slot binding the name
via `modify` (`modifyStore` walks the chain head-first), returning
`Void`. -/
theorem set_eval_semantics (x : String) (rhs : Expr) (env : Env)
    (st : Store) (fuel : Nat) :
    (findEnv x env st = none →
      eval (fuel + 1) (.setE x rhs) env st =
        .err ("Undefined variable in set!: " ++ x) env st) ∧
    (∀ v0, findEnv x env st = some v0 →
      eval (fuel + 1) (.setE x rhs) env st =
        (match eval fuel rhs env st with
         | .ok v env2 st2 => .ok .voidV env2 (modifyStore x v env2 st2)
         | .err m e2 s2 => .err m e2 s2
         | .out => .out)) := by
  constructor
  · intro h
    show (match findEnv x env st with
          | none => EvalOut.err ("Undefined variable in set!: " ++ x) env st
          | some _ => match eval fuel rhs env st with
            | EvalOut.ok v env2 st2 =>
              EvalOut.ok .voidV env2 (modifyStore x v env2 st2)
            | EvalOut.err m e2 s2 => EvalOut.err m e2 s2
            | EvalOut.out => EvalOut.out) = _
    rw [h]
  · intro v0 h
    show (match findEnv x env st with
          | none => EvalOut.err ("Undefined variable in set!: " ++ x) env st
          | some _ => match eval fuel rhs env st with
            | EvalOut.ok v env2 st2 =>
              EvalOut.ok .voidV env2 (modifyStore x v env2 st2)
            | EvalOut.err m e2 s2 => EvalOut.err m e2 s2
            | EvalOut.out => EvalOut.out) = _
    rw [h]

/-- Witness for `set_eval_semantics`: `(set! y 9)` errors when `y` is
unbound and overwrites the innermost slot when bound. -/
theorem set_eval_semantics_witness :
    eval 2 (.setE "y" (.fixnum 9)) [] [] =
      .err "Undefined variable in set!: y" [] [] ∧
    eval 2 (.setE "y" (.fixnum 9)) [("y", 0)] [some (.intV 1)] =
      .ok .voidV [("y", 0)] [some (.intV 9)] := by
  constructor
  · exact (set_eval_semantics "y" (.fixnum 9) [] [] 1).1 rfl
  · have h := (set_eval_semantics "y" (.fixnum 9) [("y", 0)]
      [some (.intV 1)] 1).2 (.intV 1) rfl
    rw [h]
    rfl

/-- Claim C9: when the head of a syntax list is the unshadowed primitive
`+` or `*` and there is exactly one operand, `List::parse` returns the
parsed operand itself — no operator node is built — so
`(+ "abc")` evaluates to the string `"abc"` with no numeric type check
and no error. -/
theorem single_operand_plus_mult_is_identity (rand : Stx) (env : Env)
    (st : Store) (fuel : Nat) :
    (findEnv "+" env st = none →
      parseF (fuel + 1) (.list [.sym "+", rand]) env st =
        parseF fuel rand env st) ∧
    (findEnv "*" env st = none →
      parseF (fuel + 1) (.list [.sym "*", rand]) env st =
        parseF fuel rand env st) ∧
    replRun 30 [.list [.sym "+", .str "abc"]] [] [] =
      [.val (.strV "abc")] := by
  refine ⟨?_, ?_, rfl⟩
  · intro h
    cases hr : parseF fuel rand env st <;>
      simp [parseF, h, parseListWith, primDispatch, primLookup,
        primitivesMap, hr]
  · intro h
    cases hr : parseF fuel rand env st <;>
      simp [parseF, h, parseListWith, primDispatch, primLookup,
        primitivesMap, hr]

/-- Witness for `single_operand_plus_mult_is_identity`: in the empty
environment `(+ 7)` parses to the very expression `7` parses to. -/
theorem single_operand_plus_mult_is_identity_witness :
    parseF 2 (.list [.sym "+", .num 7]) [] [] = parseF 1 (.num 7) [] [] :=
  (single_operand_plus_mult_is_identity (.num 7) [] [] 1).1 rfl

/-- `((lambda (args) (+ 1 2 3)) 10 20)`. -/
def lamArgsVariadicCallStx : Stx :=
  .list [.list [.sym "lambda", .list [.sym "args"],
    .list [.sym "+", .num 1, .num 2, .num 3]], .num 10, .num 20]

/-- The proper list `(10 20)` that the claim says `args` would be bound
to. -/
def argsTenTwentyVal : Value := .pairV (.intV 10) (.pairV (.intV 20) .nullV)

/-- Claim C10, counterexample: applying the user closure
`(lambda (args) (+ 1 2 3))` — whose parameter list is exactly `["args"]`
and whose body parses to the variadic node `PlusVar [1, 2, 3]` — to the
operands 10 and 20 does *not* bind `args` and evaluate the body (which
would give 6): `Apply::eval` hands the call operands straight to the
variadic operator and the program evaluates to 30. -/
theorem args_variadic_body_counterexample :
    replRun 30 [lamArgsVariadicCallStx] [] [] = [.val (.intV 30)] ∧
    eval 10 (.plusVar [.fixnum 1, .fixnum 2, .fixnum 3])
      [("args", 0)] [some argsTenTwentyVal] =
      .ok (.intV 6) [("args", 0)] [some argsTenTwentyVal] ∧
    Value.intV 30 ≠ Value.intV 6 := by
  refine ⟨rfl, rfl, ?_⟩
  intro h
  injection h with h2
  exact absurd h2 (by decide)

/-- Claim C10, amended: applying a closure whose parameter list is exactly
`["args"]` bypasses the argument-count check entirely, for every argument
count; when the closure body is a variadic primitive operator node the
call arguments are passed directly to that operator (the body's own
operands are ignored), and otherwise — in particular for every user
`(lambda (args) body)` whose body is not a variadic node — the arguments
are collected into a proper list bound to `"args"` and the body is
evaluated in the extended captured environment. -/
theorem args_closure_semantics :
    (∀ (ev : Expr → Env → Store → EvalOut) (body : Expr) (cenv : Env)
        (args : List Value) (st : Store), isVariadicNode body = false →
      applyClosWith ev ["args"] body cenv args st =
        ev body (("args", st.length) :: cenv)
          (st ++ [some (args.foldr Value.pairV Value.nullV)])) ∧
    (∀ ev body cenv (args : List Value) st, isVariadicNode body = true →
      applyClosWith ev ["args"] body cenv args st =
        liftR (variadicRatorOf body args) cenv st) ∧
    replRun 30 [.list [.list [.sym "lambda", .list [.sym "args"],
        .sym "args"], .num 1, .num 2, .num 3]] [] [] =
      [.val (.pairV (.intV 1) (.pairV (.intV 2)
        (.pairV (.intV 3) .nullV)))] ∧
    replRun 30 [.list [.list [.sym "lambda", .list [.sym "args"],
        .sym "args"]]] [] [] = [.val .nullV] := by
  refine ⟨?_, ?_, rfl, rfl⟩
  · intro ev body cenv args st h
    show (if ["args"] = ["args"] then _ else _) = _
    rw [if_pos rfl, h]
    rfl
  · intro ev body cenv args st h
    show (if ["args"] = ["args"] then _ else _) = _
    rw [if_pos rfl, h]
    rfl

/-- Witness for `args_closure_semantics`: the count check is bypassed and
`args` is bound to the collected operand list. -/
theorem args_closure_semantics_witness :
    applyClosWith (eval 3) ["args"] (.var "args") [] [.intV 1, .intV 2] [] =
      eval 3 (.var "args") [("args", 0)]
        [some (.pairV (.intV 1) (.pairV (.intV 2) .nullV))] :=
  args_closure_semantics.1 (eval 3) (.var "args") [] [.intV 1, .intV 2] []
    rfl

theorem tmod_nonneg_of_nonneg {a : Int} (ha : 0 ≤ a) (b : Int) :
    0 ≤ a.tmod b := by
  match a, ha with
  | .ofNat m, _ => cases b <;> exact Int.ofNat_nonneg _

theorem cGcdLoop_nonneg : ∀ (f : Nat) (a b r : Int), 0 ≤ a → 0 ≤ b →
    cGcdLoop f a b = some r → 0 ≤ r := by
  intro f
  induction f with
  | zero => intro a b r _ _ h; simp [cGcdLoop] at h
  | succ f ih =>
    intro a b r ha hb h
    rw [cGcdLoop] at h
    by_cases hbz : b = 0
    · rw [if_pos hbz] at h
      obtain rfl : a = r := by simpa using h
      exact ha
    · rw [if_neg hbz] at h
      exact ih b (a.tmod b) r hb (tmod_nonneg_of_nonneg ha b) h

theorem cGcd_nonneg {a b : Int} (ha : -2 ^ 31 < a) (hb : -2 ^ 31 < b) :
    0 ≤ cGcd a b := by
  obtain ⟨r, hr, _⟩ :=
    cGcdLoop_suffices ((cAbs b).natAbs + 1) (cAbs a) (cAbs b) (by omega)
  unfold cGcd
  rw [hr, Option.getD_some]
  exact cGcdLoop_nonneg _ _ _ _ (cAbs_nonneg_of_gt ha) (cAbs_nonneg_of_gt hb) hr

/-- For in-range operands away from `-2^31` with coprime magnitudes, the
C++ gcd helper returns exactly 1. -/
theorem cGcd_eq_one {a b : Int} (ha : -2 ^ 31 < a) (ha2 : a < 2 ^ 31)
    (hb : -2 ^ 31 < b) (hb2 : b < 2 ^ 31)
    (hg : Nat.gcd a.natAbs b.natAbs = 1) : cGcd a b = 1 := by
  have h1 : (cGcd a b).natAbs = 1 := by
    rw [cGcd_natAbs ⟨by omega, ha2⟩ ⟨by omega, hb2⟩, hg]
  have h2 : 0 ≤ cGcd a b := cGcd_nonneg ha hb
  omega

/-- The exact rational a numeric value denotes (`none` on non-numbers). -/
def valToRat : Value → Option ℚ
  | .intV n => some (n : ℚ)
  | .ratV a b => some ((a : ℚ) / (b : ℚ))
  | _ => none

/-- All `int` fields strictly inside the 32-bit range (every value the
interpreter reaches without wrap-around overflow — which the spec leaves
implementation-defined for `+`/`-`/`*` — satisfies this). -/
def ValOkRange : Value → Prop
  | .intV n => -2 ^ 31 < n ∧ n < 2 ^ 31
  | .ratV a b => (-2 ^ 31 < a ∧ a < 2 ^ 31) ∧ (-2 ^ 31 < b ∧ b < 2 ^ 31)
  | _ => True

/-- The normalization invariant of produced rationals (claim C5):
positive denominator, coprime fields. -/
def NormalRat : Value → Prop
  | .ratV a b => 0 < b ∧ Nat.gcd a.natAbs b.natAbs = 1
  | _ => True

/-- On in-range coprime operands the constructor only fixes the sign. -/
theorem rationalMk_coprime {a b : Int} (ha1 : -2 ^ 31 < a) (ha2 : a < 2 ^ 31)
    (hb1 : -2 ^ 31 < b) (hb2 : b < 2 ^ 31) (hb0 : b ≠ 0)
    (hg : Nat.gcd a.natAbs b.natAbs = 1) :
    rationalMk a b = if b < 0 then .ok ⟨-a, -b⟩ else .ok ⟨a, b⟩ := by
  rw [rationalMk_fields hb0]
  dsimp only
  rw [cGcd_eq_one ha1 ha2 hb1 hb2 hg, Int.tdiv_one, Int.tdiv_one,
    wrap32_eq_self ⟨by omega, ha2⟩, wrap32_eq_self ⟨by omega, hb2⟩]
  by_cases hneg : b < 0
  · rw [if_pos hneg, if_pos hneg,
      wrap32_eq_self ⟨by omega, by omega⟩, wrap32_eq_self ⟨by omega, by omega⟩]
  · rw [if_neg hneg, if_neg hneg]

/-- Claim C6: the variadic arithmetic special cases.  `(+)` is the integer
0 and `(*)` the integer 1; `(-)` and `(/)` raise `RuntimeError`s; on one
numeric operand within range (away from the wrap point `-2^31`, whose
overflow the spec leaves implementation-defined) and normalized as the
interpreter produces it, `(- x)` denotes exactly `-x` and `(/ x)` exactly
`1/x`, failing on `x = 0`. -/
theorem variadic_arith_identities :
    plusVarRator [] = .ok (.intV 0) ∧
    multVarRator [] = .ok (.intV 1) ∧
    minusVarRator [] = .error "Wrong number of arguments for -" ∧
    divVarRator [] = .error "Wrong number of arguments for /" ∧
    (∀ (v : Value) (r : ℚ), valToRat v = some r → ValOkRange v →
      NormalRat v →
      ∃ v2, minusVarRator [v] = .ok v2 ∧ valToRat v2 = some (-r)) ∧
    (∀ (v : Value) (r : ℚ), valToRat v = some r → ValOkRange v →
      NormalRat v → r ≠ 0 →
      ∃ v2, divVarRator [v] = .ok v2 ∧ valToRat v2 = some (1 / r)) ∧
    (∀ v : Value, valToRat v = some 0 → NormalRat v →
      divVarRator [v] = .error "Division by zero") := by
  refine ⟨rfl, rfl, rfl, rfl, ?_, ?_, ?_⟩
  · -- negation
    intro v r hval hrange hnorm
    cases v with
    | intV n =>
      simp only [valToRat, Option.some.injEq] at hval
      obtain ⟨h1, h2⟩ := hrange
      refine ⟨.intV (-n), ?_, ?_⟩
      · show Except.ok (Value.intV (wrap32 (-n))) = _
        rw [wrap32_eq_self ⟨by omega, by omega⟩]
      · simp only [valToRat, Option.some.injEq, ← hval]
        push_cast
        ring
    | ratV a b =>
      simp only [valToRat, Option.some.injEq] at hval
      obtain ⟨⟨ha1, ha2⟩, hb1, hb2⟩ := hrange
      obtain ⟨hbpos, hgcd⟩ := hnorm
      have hmk : rationalMk (-a) b = .ok ⟨-a, b⟩ := by
        rw [rationalMk_coprime (by omega) (by omega) hb1 hb2 (by omega)
          (by rw [Int.natAbs_neg]; exact hgcd)]
        rw [if_neg (by omega)]
      refine ⟨.ratV (-a) b, ?_, ?_⟩
      · show rationalV (wrap32 (-a)) b = _
        rw [wrap32_eq_self ⟨by omega, by omega⟩]
        rw [rationalV, hmk]
        rfl
      · simp only [valToRat, Option.some.injEq, ← hval]
        push_cast
        ring
    | boolV bb => simp [valToRat] at hval
    | symV s => simp [valToRat] at hval
    | strV s => simp [valToRat] at hval
    | nullV => simp [valToRat] at hval
    | pairV x y => simp [valToRat] at hval
    | procV p bo en => simp [valToRat] at hval
    | voidV => simp [valToRat] at hval
    | terminateV => simp [valToRat] at hval
  · -- reciprocal
    intro v r hval hrange hnorm hr0
    cases v with
    | intV n =>
      simp only [valToRat, Option.some.injEq] at hval
      obtain ⟨h1, h2⟩ := hrange
      have hn0 : n ≠ 0 := by
        intro h
        apply hr0
        rw [← hval, h]
        norm_num
      have hmk : rationalMk 1 n =
          if n < 0 then Except.ok ⟨-1, -n⟩ else Except.ok ⟨1, n⟩ :=
        rationalMk_coprime (by omega) (by omega) h1 h2 hn0 (by simp)
      by_cases hneg : n < 0
      · refine ⟨.ratV (-1) (-n), ?_, ?_⟩
        · show (if n = 0 then Except.error "Division by zero"
                else rationalV 1 n) = _
          rw [if_neg hn0, rationalV, hmk, if_pos hneg]
          rfl
        · simp only [valToRat, Option.some.injEq, ← hval]
          push_cast
          rw [neg_div_neg_eq]
      · refine ⟨.ratV 1 n, ?_, ?_⟩
        · show (if n = 0 then Except.error "Division by zero"
                else rationalV 1 n) = _
          rw [if_neg hn0, rationalV, hmk, if_neg hneg]
          rfl
        · simp only [valToRat, Option.some.injEq, ← hval]
          push_cast
          ring
    | ratV a b =>
      simp only [valToRat, Option.some.injEq] at hval
      obtain ⟨⟨ha1, ha2⟩, hb1, hb2⟩ := hrange
      obtain ⟨hbpos, hgcd⟩ := hnorm
      have ha0 : a ≠ 0 := by
        intro h
        apply hr0
        rw [← hval, h]
        norm_num
      have hmk : rationalMk b a =
          if a < 0 then Except.ok ⟨-b, -a⟩ else Except.ok ⟨b, a⟩ :=
        rationalMk_coprime hb1 hb2 ha1 ha2 ha0
          (by rw [Nat.gcd_comm]; exact hgcd)
      by_cases hneg : a < 0
      · refine ⟨.ratV (-b) (-a), ?_, ?_⟩
        · show (if a = 0 then Except.error "Division by zero"
                else rationalV b a) = _
          rw [if_neg ha0, rationalV, hmk, if_pos hneg]
          rfl
        · simp only [valToRat, Option.some.injEq, ← hval]
          push_cast
          rw [neg_div_neg_eq, one_div_div]
      · refine ⟨.ratV b a, ?_, ?_⟩
        · show (if a = 0 then Except.error "Division by zero"
                else rationalV b a) = _
          rw [if_neg ha0, rationalV, hmk, if_neg hneg]
          rfl
        · simp only [valToRat, Option.some.injEq, ← hval]
          rw [one_div_div]
    | boolV bb => simp [valToRat] at hval
    | symV s => simp [valToRat] at hval
    | strV s => simp [valToRat] at hval
    | nullV => simp [valToRat] at hval
    | pairV x y => simp [valToRat] at hval
    | procV p bo en => simp [valToRat] at hval
    | voidV => simp [valToRat] at hval
    | terminateV => simp [valToRat] at hval
  · -- reciprocal of zero
    intro v hval hnorm
    cases v with
    | intV n =>
      simp only [valToRat, Option.some.injEq] at hval
      have hn0 : n = 0 := by exact_mod_cast hval
      subst hn0
      rfl
    | ratV a b =>
      simp only [valToRat, Option.some.injEq] at hval
      obtain ⟨hbpos, _⟩ := hnorm
      have ha0 : a = 0 := by
        have hb0 : (b : ℚ) ≠ 0 := by
          exact_mod_cast (by omega : b ≠ 0)
        field_simp at hval
        exact_mod_cast hval
      subst ha0
      rfl
    | boolV bb => simp [valToRat] at hval
    | symV s => simp [valToRat] at hval
    | strV s => simp [valToRat] at hval
    | nullV => simp [valToRat] at hval
    | pairV x y => simp [valToRat] at hval
    | procV p bo en => simp [valToRat] at hval
    | voidV => simp [valToRat] at hval
    | terminateV => simp [valToRat] at hval

/-- Witness for `variadic_arith_identities`: `(- 5)` denotes `-5`,
`(/ 2)` denotes `1/2`, and `(/ 0)` fails. -/
theorem variadic_arith_identities_witness :
    (∃ v2, minusVarRator [.intV 5] = .ok v2 ∧
      valToRat v2 = some (-(5 : ℚ))) ∧
    (∃ v2, divVarRator [.intV 2] = .ok v2 ∧
      valToRat v2 = some (1 / (2 : ℚ))) ∧
    divVarRator [.intV 0] = .error "Division by zero" := by
  refine ⟨?_, ?_, ?_⟩
  · exact variadic_arith_identities.2.2.2.2.1 (.intV 5) 5
      (by norm_num [valToRat]) ⟨by norm_num, by norm_num⟩ trivial
  · exact variadic_arith_identities.2.2.2.2.2.1 (.intV 2) 2
      (by norm_num [valToRat]) ⟨by norm_num, by norm_num⟩ trivial
      (by norm_num)
  · exact variadic_arith_identities.2.2.2.2.2.2 (.intV 0)
      (by norm_num [valToRat]) trivial

end SchemeSpec
